import Mathlib

set_option maxHeartbeats 1000000

/-! Verification development for the connection-string parsing core of
tokio-postgres (`src/config.rs`).  The embedding models the `runtime` +
Unix build configuration, in which every field of `Inner` and both `Host`
variants are present.  Rust `&str`/`String` values are `List Char`
(Unicode scalar values, matching Rust `char`); byte sequences (`Vec<u8>`,
`PathBuf`, percent-decoded data) are `List Nat` with entries below 256. -/

/-- The single-quote character, written via its code point. -/
def squote : Char := Char.ofNat 39

/-- The backslash character, written via its code point. -/
def bslash : Char := Char.ofNat 92

/-- `TargetSessionAttrs` from config.rs.  The hidden `__NonExhaustive`
variant is never constructed by the module and is omitted. -/
inductive TargetSessionAttrs
  | Any
  | ReadWrite
  deriving DecidableEq, Repr

/-- `Host` from config.rs: a TCP hostname (Rust `String`) or a Unix socket
path (Rust `PathBuf`, i.e. raw bytes). -/
inductive Host
  | Tcp (name : List Char)
  | Unix (path : List Nat)
  deriving DecidableEq, Repr

/-- The `Inner` struct of config.rs (named `Config.Inner` here
because Mathlib already uses the root name `Inner`).  `Duration` fields are counts of
seconds, which is the only granularity the module ever constructs. -/
structure Config.Inner where
  user : Option (List Char)
  password : Option (List Nat)
  dbname : Option (List Char)
  options : Option (List Char)
  application_name : Option (List Char)
  host : List Host
  port : List Nat
  connect_timeout : Option Nat
  keepalives : Bool
  keepalives_idle : Nat
  target_session_attrs : TargetSessionAttrs
  deriving DecidableEq, Repr

/-- `Config::new` from config.rs (the `Inner` value it wraps in an `Arc`). -/
def Config.new : Config.Inner where
  user := none
  password := none
  dbname := none
  options := none
  application_name := none
  host := []
  port := []
  connect_timeout := none
  keepalives := true
  keepalives_idle := 2 * 60 * 60
  target_session_attrs := TargetSessionAttrs.Any

/-- UTF-8 encoding of one Unicode scalar value, as Rust's `str::as_bytes`
produces for one `char`. -/
def charUtf8 (c : Char) : List Nat :=
  let n := c.toNat
  if n < 0x80 then [n]
  else if n < 0x800 then [0xC0 + n / 0x40, 0x80 + n % 0x40]
  else if n < 0x10000 then [0xE0 + n / 0x1000, 0x80 + n / 0x40 % 0x40, 0x80 + n % 0x40]
  else [0xF0 + n / 0x40000, 0x80 + n / 0x1000 % 0x40, 0x80 + n / 0x40 % 0x40, 0x80 + n % 0x40]

/-- `str::as_bytes`: the UTF-8 byte sequence of a string. -/
def utf8Encode (s : List Char) : List Nat := (s.map charUtf8).flatten

/-- Is `b` a UTF-8 continuation byte (`0x80..=0xBF`)? -/
def contByte (b : Nat) : Bool := 0x80 ≤ b && b ≤ 0xBF

/-- Strict UTF-8 decoding as Rust's `str::from_utf8` /
`Cow::decode_utf8` validate it: shortest form only, surrogates rejected,
code points at most `0x10FFFF`.  Returns `none` on invalid input. -/
def utf8Decode : List Nat → Option (List Char)
  | [] => some []
  | b :: rest =>
    if b < 0x80 then
      match utf8Decode rest with
      | some cs => some (Char.ofNat b :: cs)
      | none => none
    else if b < 0xC2 then none
    else if b < 0xE0 then
      match rest with
      | b2 :: rest2 =>
        if contByte b2 then
          match utf8Decode rest2 with
          | some cs => some (Char.ofNat ((b - 0xC0) * 0x40 + (b2 - 0x80)) :: cs)
          | none => none
        else none
      | [] => none
    else if b < 0xF0 then
      match rest with
      | b2 :: b3 :: rest3 =>
        if (if b = 0xE0 then 0xA0 ≤ b2 && b2 ≤ 0xBF
            else if b = 0xED then 0x80 ≤ b2 && b2 ≤ 0x9F
            else contByte b2) && contByte b3 then
          match utf8Decode rest3 with
          | some cs =>
            some (Char.ofNat ((b - 0xE0) * 0x1000 + (b2 - 0x80) * 0x40 + (b3 - 0x80)) :: cs)
          | none => none
        else none
      | _ => none
    else if b < 0xF5 then
      match rest with
      | b2 :: b3 :: b4 :: rest4 =>
        if (if b = 0xF0 then 0x90 ≤ b2 && b2 ≤ 0xBF
            else if b = 0xF4 then 0x80 ≤ b2 && b2 ≤ 0x8F
            else contByte b2) && contByte b3 && contByte b4 then
          match utf8Decode rest4 with
          | some cs =>
            some (Char.ofNat ((b - 0xF0) * 0x40000 + (b2 - 0x80) * 0x1000 +
              (b3 - 0x80) * 0x40 + (b4 - 0x80)) :: cs)
          | none => none
        else none
      | _ => none
    else none

/-- Is `b` the byte of an ASCII hexadecimal digit? -/
def isHexByte (b : Nat) : Bool :=
  (0x30 ≤ b && b ≤ 0x39) || (0x41 ≤ b && b ≤ 0x46) || (0x61 ≤ b && b ≤ 0x66)

/-- Value of an ASCII hexadecimal digit byte. -/
def hexVal (b : Nat) : Nat :=
  if b ≤ 0x39 then b - 0x30 else if b ≤ 0x46 then b - 0x37 else b - 0x57

/-- `percent_encoding::percent_decode` on bytes: `%XY` with two hex digits
becomes one byte; a `%` not followed by two hex digits passes through
unchanged, as do all other bytes. -/
def pctDecodeBytes : List Nat → List Nat
  | [] => []
  | 0x25 :: h1 :: h2 :: rest =>
    if isHexByte h1 && isHexByte h2 then
      (0x10 * hexVal h1 + hexVal h2) :: pctDecodeBytes rest
    else
      0x25 :: pctDecodeBytes (h1 :: h2 :: rest)
  | b :: rest => b :: pctDecodeBytes rest

/-- Percent-decode a string to raw bytes
(`percent_decode(s.as_bytes())`). -/
def pctDecode (s : List Char) : List Nat := pctDecodeBytes (utf8Encode s)

/-- `UrlParser::decode`: percent-decode and then require valid UTF-8. -/
def decodeStr (s : List Char) : Option (List Char) := utf8Decode (pctDecode s)

/-- Digits-only decimal reading used by Rust's integer `FromStr`: `none`
unless the list is a nonempty run of ASCII digits. -/
def decDigits (ds : List Char) : Option Nat :=
  if ds = [] then none
  else if ds.all (fun c => 48 ≤ c.toNat && c.toNat ≤ 57) then
    some (ds.foldl (fun a c => 10 * a + (c.toNat - 48)) 0)
  else none

/-- Rust `u16::from_str`: optional `+` sign, then digits, value below
`2^16`; anything else (including `-`) fails. -/
def parseU16 (s : List Char) : Option Nat :=
  let ds := match s with
    | c :: rest => if c = '+' then rest else s
    | [] => s
  match decDigits ds with
  | some n => if n < 0x10000 then some n else none
  | none => none

/-- Rust `u64::from_str`: optional `+` sign, then digits, value below
`2^64`. -/
def parseU64 (s : List Char) : Option Nat :=
  let ds := match s with
    | c :: rest => if c = '+' then rest else s
    | [] => s
  match decDigits ds with
  | some n => if n < 0x10000000000000000 then some n else none
  | none => none

/-- Rust `i64::from_str`: optional sign, then digits, value within the
64-bit signed range. -/
def parseI64 (s : List Char) : Option Int :=
  match s with
  | c :: rest =>
    if c = '-' then
      match decDigits rest with
      | some n => if n ≤ 0x8000000000000000 then some (-(n : Int)) else none
      | none => none
    else
      let ds := if c = '+' then rest else c :: rest
      match decDigits ds with
      | some n => if n < 0x8000000000000000 then some (n : Int) else none
      | none => none
  | [] => none

/-- `Config::user` (the mutation `Arc::make_mut` performs on `Inner`). -/
def Config.user (c : Config.Inner) (u : List Char) : Config.Inner :=
  { c with user := some u }

/-- `Config::password`: stores the argument's bytes. -/
def Config.password (c : Config.Inner) (p : List Nat) : Config.Inner :=
  { c with password := some p }

/-- `Config::dbname`. -/
def Config.dbname (c : Config.Inner) (d : List Char) : Config.Inner :=
  { c with dbname := some d }

/-- `Config::options`. -/
def Config.options (c : Config.Inner) (o : List Char) : Config.Inner :=
  { c with options := some o }

/-- `Config::application_name`. -/
def Config.application_name (c : Config.Inner) (a : List Char) : Config.Inner :=
  { c with application_name := some a }

/-- `Config::host_path`: appends a Unix-socket host (raw path bytes). -/
def Config.host_path (c : Config.Inner) (p : List Nat) : Config.Inner :=
  { c with host := c.host ++ [Host.Unix p] }

/-- `Config::host`: a host starting with `/` is routed to `host_path`
(its UTF-8 bytes become the path); otherwise a TCP host is appended. -/
def Config.host (c : Config.Inner) (h : List Char) : Config.Inner :=
  if h.head? = some '/' then Config.host_path c (utf8Encode h)
  else { c with host := c.host ++ [Host.Tcp h] }

/-- `Config::port`: appends one port. -/
def Config.port (c : Config.Inner) (p : Nat) : Config.Inner :=
  { c with port := c.port ++ [p] }

/-- `Config::connect_timeout` (seconds). -/
def Config.connect_timeout (c : Config.Inner) (t : Nat) : Config.Inner :=
  { c with connect_timeout := some t }

/-- `Config::keepalives`. -/
def Config.keepalives (c : Config.Inner) (k : Bool) : Config.Inner :=
  { c with keepalives := k }

/-- `Config::keepalives_idle` (seconds). -/
def Config.keepalives_idle (c : Config.Inner) (t : Nat) : Config.Inner :=
  { c with keepalives_idle := t }

/-- `Config::target_session_attrs`. -/
def Config.target_session_attrs (c : Config.Inner) (t : TargetSessionAttrs) :
    Config.Inner :=
  { c with target_session_attrs := t }

/-- Rust `str::split(sep)`: splitting the empty string gives `[[]]`, and
separators at the ends produce empty components. -/
def splitOnChar (sep : Char) : List Char → List (List Char)
  | [] => [[]]
  | c :: rest =>
    if c = sep then [] :: splitOnChar sep rest
    else
      match splitOnChar sep rest with
      | h :: t => (c :: h) :: t
      | [] => [[c]]

/-- Rust `str::splitn(2, sep)`: the part before the first separator and,
if the separator occurs, the remainder after it. -/
def splitOnce (sep : Char) : List Char → List Char × Option (List Char)
  | [] => ([], none)
  | c :: rest =>
    if c = sep then ([], some rest)
    else
      let p := splitOnce sep rest
      (c :: p.1, p.2)

/-- The distinguishable errors produced by the module: the payloads of the
`Error::config_parse` values it constructs.  `unexpectedChar` stands for
the formatted "unexpected character" message of `Parser::eat` (the byte
offset it also prints is not modelled), `unexpectedEof` for
"unexpected EOF", `unterminatedQuote` for "unterminated quoted connection
parameter value", `unterminatedParam` for "unterminated parameter", and
`decodeErr` for a `Utf8Error` payload. -/
inductive CfgErr
  | unknownOption (key : List Char)
  | invalidValue (key : List Char)
  | unexpectedChar (expected found : Char)
  | unexpectedEof
  | unterminatedQuote
  | unterminatedParam
  | decodeErr
  deriving DecidableEq, Repr

/-- The `for port in value.split(',')` loop inside `Config::param`'s
`"port"` arm, returning the mutated state together with the error, if any:
on a component that fails to parse the loop stops, keeping the ports
already appended (the Rust `?` operator leaves `&mut self` as is). -/
def portApply (c : Config.Inner) : List (List Char) → Config.Inner × Option CfgErr
  | [] => (c, none)
  | p :: rest =>
    if p = [] then portApply (Config.port c 5432) rest
    else
      match parseU16 p with
      | some n => portApply (Config.port c n) rest
      | none => (c, some (CfgErr.invalidValue ("port".data)))

/-- `Config::param`: the keyed-setter dispatch.  It returns the state of
`self` after the call together with the error, if any, so that the effect
a failing call has already had on `&mut self` stays observable. -/
def Config.param (c : Config.Inner) (key value : List Char) :
    Config.Inner × Option CfgErr :=
  if key = "user".data then (Config.user c value, none)
  else if key = "password".data then (Config.password c (utf8Encode value), none)
  else if key = "dbname".data then (Config.dbname c value, none)
  else if key = "options".data then (Config.options c value, none)
  else if key = "application_name".data then (Config.application_name c value, none)
  else if key = "host".data then
    ((splitOnChar ',' value).foldl Config.host c, none)
  else if key = "port".data then portApply c (splitOnChar ',' value)
  else if key = "connect_timeout".data then
    match parseI64 value with
    | some t => (if 0 < t then Config.connect_timeout c t.toNat else c, none)
    | none => (c, some (CfgErr.invalidValue ("connect_timeout".data)))
  else if key = "keepalives".data then
    match parseU64 value with
    | some k => (Config.keepalives c (k ≠ 0), none)
    | none => (c, some (CfgErr.invalidValue ("keepalives".data)))
  else if key = "keepalives_idle".data then
    match parseI64 value with
    | some t => (if 0 < t then Config.keepalives_idle c t.toNat else c, none)
    | none => (c, some (CfgErr.invalidValue ("keepalives_idle".data)))
  else if key = "target_session_attrs".data then
    if value = "any".data then
      (Config.target_session_attrs c TargetSessionAttrs.Any, none)
    else if value = "read-write".data then
      (Config.target_session_attrs c TargetSessionAttrs.ReadWrite, none)
    else (c, some (CfgErr.invalidValue ("target_session_attrs".data)))
  else (c, some (CfgErr.unknownOption key))

/-- `Config::param` seen as a fallible step, as both parsers consume it:
the post-state on success, the error alone on failure (the parsers drop
the partially mutated config when they abort). -/
def paramE (c : Config.Inner) (key value : List Char) :
    Except CfgErr Config.Inner :=
  match Config.param c key value with
  | (c', none) => Except.ok c'
  | (_, some e) => Except.error e

/-- Rust `char::is_whitespace`: the Unicode `White_Space` property. -/
def isWspace (c : Char) : Bool :=
  c.toNat ∈ [0x09, 0x0A, 0x0B, 0x0C, 0x0D, 0x20, 0x85, 0xA0, 0x1680,
    0x2000, 0x2001, 0x2002, 0x2003, 0x2004, 0x2005, 0x2006, 0x2007,
    0x2008, 0x2009, 0x200A, 0x2028, 0x2029, 0x202F, 0x205F, 0x3000]

/-- The character class of `Parser::keyword`: neither whitespace nor `=`. -/
def kwChar (c : Char) : Bool := !isWspace c && c ≠ '='

/-- `Parser::quoted_value`: scan up to an unescaped closing quote, which is
left unconsumed; a backslash is dropped and the next character (if any) is
taken literally; exhausting the input is the "unterminated quoted
connection parameter value" error. -/
def quotedValue : List Char → Except CfgErr (List Char × List Char)
  | [] => Except.error CfgErr.unterminatedQuote
  | c :: rest =>
    if c = squote then Except.ok ([], c :: rest)
    else if c = bslash then
      match rest with
      | [] => Except.error CfgErr.unterminatedQuote
      | c2 :: rest2 =>
        match quotedValue rest2 with
        | Except.ok p => Except.ok (c2 :: p.1, p.2)
        | Except.error e => Except.error e
    else
      match quotedValue rest with
      | Except.ok p => Except.ok (c :: p.1, p.2)
      | Except.error e => Except.error e

/-- The scanning loop of `Parser::simple_value`: stop before whitespace;
a backslash is dropped and the next character (if any) taken literally. -/
def simpleScan : List Char → List Char × List Char
  | [] => ([], [])
  | c :: rest =>
    if isWspace c then ([], c :: rest)
    else if c = bslash then
      match rest with
      | [] => ([], [])
      | c2 :: rest2 =>
        let p := simpleScan rest2
        (c2 :: p.1, p.2)
    else
      let p := simpleScan rest
      (c :: p.1, p.2)

/-- `Parser::simple_value`: an empty result is the "unexpected EOF"
error. -/
def simpleValue (s : List Char) : Except CfgErr (List Char × List Char) :=
  let p := simpleScan s
  if p.1 = [] then Except.error CfgErr.unexpectedEof else Except.ok p

/-- `Parser::value`: a leading quote selects `quoted_value` followed by
`eat('\x27')`; otherwise `simple_value`. -/
def Parser.value (s : List Char) : Except CfgErr (List Char × List Char) :=
  match s with
  | c :: rest =>
    if c = squote then
      match quotedValue rest with
      | Except.ok (v, r) =>
        match r with
        | c2 :: r2 =>
          if c2 = squote then Except.ok (v, r2)
          else Except.error (CfgErr.unexpectedChar squote c2)
        | [] => Except.error CfgErr.unexpectedEof
      | Except.error e => Except.error e
    else simpleValue (c :: rest)
  | [] => simpleValue []

/-- `Parser::parameter`: skip whitespace; an empty keyword ends parsing
(`none`); otherwise whitespace, a mandatory `=`, whitespace, and a value.
Returns the keyword, the value and the remaining input. -/
def Parser.parameter (s : List Char) :
    Except CfgErr (Option (List Char × List Char × List Char)) :=
  let s1 := s.dropWhile isWspace
  let kw := s1.takeWhile kwChar
  if kw = [] then Except.ok none
  else
    let s2 := (s1.dropWhile kwChar).dropWhile isWspace
    match s2 with
    | c :: s3 =>
      if c = '=' then
        match Parser.value (s3.dropWhile isWspace) with
        | Except.ok (v, rest) => Except.ok (some (kw, v, rest))
        | Except.error e => Except.error e
      else Except.error (CfgErr.unexpectedChar '=' c)
    | [] => Except.error CfgErr.unexpectedEof

lemma dropWhile_length_le (p : Char → Bool) (l : List Char) :
    (l.dropWhile p).length ≤ l.length := by
  induction l with
  | nil => simp
  | cons a t ih =>
    rw [List.dropWhile_cons]
    split
    · exact Nat.le_succ_of_le ih
    · simp

lemma dropWhile_length_lt_of_takeWhile_ne_nil {p : Char → Bool} {l : List Char}
    (h : l.takeWhile p ≠ []) : (l.dropWhile p).length < l.length := by
  cases l with
  | nil => simp at h
  | cons a t =>
    rw [List.takeWhile_cons] at h
    rw [List.dropWhile_cons]
    by_cases hp : p a
    · simp only [hp, if_true]
      exact Nat.lt_succ_of_le (dropWhile_length_le p t)
    · simp [hp] at h

lemma quotedValue_length {s v r : List Char}
    (h : quotedValue s = Except.ok (v, r)) : r.length ≤ s.length := by
  induction s using quotedValue.induct generalizing v r with
  | case1 => rw [quotedValue.eq_def] at h; simp at h
  | case2 rest =>
    rw [quotedValue.eq_def] at h
    simp at h
    obtain ⟨_, hr⟩ := h
    subst hr; simp
  | case3 hne =>
    rw [quotedValue.eq_def] at h
    simp [hne] at h
  | case4 c rest p hp hne ih =>
    rw [quotedValue.eq_def] at h
    simp [hne, hp] at h
    obtain ⟨_, hr⟩ := h
    subst hr
    have := ih (v := p.1) (r := p.2) (by rw [hp])
    simp only [List.length_cons]
    omega
  | case5 c rest e he hne ih =>
    rw [quotedValue.eq_def] at h
    simp [hne, he] at h
  | case6 c rest hq hb p hp ih =>
    rw [quotedValue.eq_def] at h
    simp [hq, hb, hp] at h
    obtain ⟨_, hr⟩ := h
    subst hr
    have := ih (v := p.1) (r := p.2) (by rw [hp])
    simp only [List.length_cons]
    omega
  | case7 c rest hq hb e he ih =>
    rw [quotedValue.eq_def] at h
    simp [hq, hb, he] at h

lemma simpleScan_length (s : List Char) :
    (simpleScan s).2.length ≤ s.length := by
  induction s using simpleScan.induct with
  | case1 => simp [simpleScan.eq_1]
  | case2 c rest hw =>
    rw [simpleScan.eq_def]
    simp [hw]
  | case3 hb =>
    rw [simpleScan.eq_def]
    simp [hb]
  | case4 c rest hb ih =>
    rw [simpleScan.eq_def]
    simp only [if_neg hb, if_true, eq_self_iff_true, if_pos rfl, List.length_cons]
    omega
  | case5 c rest hw hb ih =>
    rw [simpleScan.eq_def]
    simp only [if_neg hw, if_neg hb]
    simp only [List.length_cons]
    omega

lemma value_length {s v r : List Char}
    (h : Parser.value s = Except.ok (v, r)) : r.length ≤ s.length := by
  unfold Parser.value at h
  cases s with
  | nil =>
    simp only [simpleValue] at h
    split at h
    · exact absurd h (by simp)
    · have hr := congrArg Prod.snd (Except.ok.inj h)
      simp only at hr
      rw [← hr]
      exact simpleScan_length []
  | cons c rest =>
    by_cases hq : c = squote
    · simp only [hq, if_pos rfl] at h
      cases hqv : quotedValue rest with
      | error e => rw [hqv] at h; exact absurd h (by simp)
      | ok p =>
        rw [hqv] at h
        obtain ⟨pv, pr⟩ := p
        cases pr with
        | nil => exact absurd h (by simp)
        | cons c2 r2 =>
          by_cases hc2 : c2 = squote
          · simp [hc2] at h
            have hr : r = r2 := h.2.symm
            subst hr
            have := quotedValue_length hqv
            simp only [List.length_cons] at this ⊢
            omega
          · simp [hc2] at h
    · simp only [if_neg hq, simpleValue] at h
      split at h
      · exact absurd h (by simp)
      · have hr := congrArg Prod.snd (Except.ok.inj h)
        simp only at hr
        rw [← hr]
        exact simpleScan_length (c :: rest)

lemma parameter_length {s k v r : List Char}
    (h : Parser.parameter s = Except.ok (some (k, v, r))) : r.length < s.length := by
  unfold Parser.parameter at h
  set s1 := s.dropWhile isWspace with hs1
  by_cases hkw : s1.takeWhile kwChar = []
  · simp [hkw] at h
  · simp only [if_neg hkw] at h
    have hlt1 : ((s1.dropWhile kwChar).dropWhile isWspace).length < s1.length :=
      Nat.lt_of_le_of_lt (dropWhile_length_le _ _)
        (dropWhile_length_lt_of_takeWhile_ne_nil hkw)
    have hle0 : s1.length ≤ s.length := dropWhile_length_le _ _
    cases hs2 : (s1.dropWhile kwChar).dropWhile isWspace with
    | nil => rw [hs2] at h; exact absurd h (by simp)
    | cons c s3 =>
      rw [hs2] at h
      by_cases hc : c = '='
      · simp only [hc, if_pos rfl] at h
        cases hv : Parser.value (s3.dropWhile isWspace) with
        | error e => rw [hv] at h; exact absurd h (by simp)
        | ok p =>
          rw [hv] at h
          obtain ⟨pv, pr⟩ := p
          simp at h
          have hr : r = pr := h.2.2.symm
          subst hr
          have h1 := value_length hv
          have h2 : (s3.dropWhile isWspace).length ≤ s3.length := dropWhile_length_le _ _
          rw [hs2] at hlt1
          simp only [List.length_cons] at hlt1
          omega
      · simp [hc] at h

/-- The loop of `Parser::parse`: repeatedly take a parameter and apply it,
stopping at the first error from either the grammar or `param`. -/
def Parser.parseLoop (cfg : Config.Inner) (s : List Char) :
    Except CfgErr Config.Inner :=
  match h : Parser.parameter s with
  | Except.error e => Except.error e
  | Except.ok none => Except.ok cfg
  | Except.ok (some (k, v, rest)) =>
    match paramE cfg k v with
    | Except.error e => Except.error e
    | Except.ok cfg1 => Parser.parseLoop cfg1 rest
termination_by s.length
decreasing_by exact parameter_length h

/-- `Parser::parse`: run the key/value grammar from a fresh config. -/
def Parser.parse (s : List Char) : Except CfgErr Config.Inner :=
  Parser.parseLoop Config.new s

/-- `UrlParser::take_until`: the text before the first occurrence of any
of `ends`, together with the tail that still starts with the found
character; `none` when no such character occurs. -/
def takeUntil (ends : List Char) : List Char → Option (List Char × List Char)
  | [] => none
  | c :: rest =>
    if c ∈ ends then some ([], c :: rest)
    else
      match takeUntil ends rest with
      | some p => some (c :: p.1, p.2)
      | none => none

lemma takeUntil_some {ends s pre t : List Char}
    (h : takeUntil ends s = some (pre, t)) :
    s = pre ++ t ∧ (∀ c ∈ pre, c ∉ ends) ∧ ∃ c t2, t = c :: t2 ∧ c ∈ ends := by
  induction s generalizing pre t with
  | nil => simp [takeUntil] at h
  | cons c rest ih =>
    rw [takeUntil.eq_def] at h
    by_cases hc : c ∈ ends
    · simp only [if_pos hc] at h
      simp only [Option.some.injEq, Prod.mk.injEq] at h
      obtain ⟨h1, h2⟩ := h
      subst h1; subst h2
      exact ⟨rfl, by simp, c, rest, rfl, hc⟩
    · simp only [if_neg hc] at h
      cases hrec : takeUntil ends rest with
      | none => rw [hrec] at h; exact absurd h (by simp)
      | some p =>
        rw [hrec] at h
        simp only [Option.some.injEq, Prod.mk.injEq] at h
        obtain ⟨h1, h2⟩ := h
        obtain ⟨e1, e2, e3⟩ := @ih p.1 p.2 (by rw [hrec])
        subst h2
        refine ⟨?_, ?_, e3⟩
        · rw [← h1]; simp [e1]
        · intro x hx
          rw [← h1] at hx
          rcases List.mem_cons.mp hx with hx | hx
          · subst hx; exact hc
          · exact e2 x hx

lemma takeUntil_none {ends s : List Char}
    (h : ∀ c ∈ s, c ∉ ends) : takeUntil ends s = none := by
  induction s with
  | nil => rfl
  | cons c rest ih =>
    rw [takeUntil.eq_def]
    simp only [if_neg (h c (by simp))]
    rw [ih (fun x hx => h x (by simp [hx]))]

/-- `UrlParser::remove_url_prefix`: strips the `postgres://` or
`postgresql://` scheme, or declines. -/
def removeUrlScheme (s : List Char) : Option (List Char) :=
  if ("postgres://".data).isPrefixOf s then some (s.drop 11)
  else if ("postgresql://".data).isPrefixOf s then some (s.drop 13)
  else none

/-- `UrlParser::host_param` for the `runtime` + Unix build: percent-decode
to raw bytes; a leading `/` byte selects `host_path` on the raw bytes,
anything else must be valid UTF-8 and goes through `Config::host`. -/
def hostParam (c : Config.Inner) (s : List Char) : Except CfgErr Config.Inner :=
  let decoded := pctDecode s
  if decoded.head? = some 0x2F then Except.ok (Config.host_path c decoded)
  else
    match utf8Decode decoded with
    | some str => Except.ok (Config.host c str)
    | none => Except.error CfgErr.decodeErr

/-- `UrlParser::parse_credentials`: text before the first `@` (searched in
the whole remaining input), split once on `:`; the first part is decoded
and set as `user`, the optional second part is percent-decoded to raw
bytes and set as `password`.  Without `@` nothing happens. -/
def parseCredentials (c : Config.Inner) (s : List Char) :
    Except CfgErr (Config.Inner × List Char) :=
  match takeUntil ['@'] s with
  | none => Except.ok (c, s)
  | some (creds, t) =>
    let rest := t.drop 1
    let up := splitOnce ':' creds
    match decodeStr up.1 with
    | none => Except.error CfgErr.decodeErr
    | some u =>
      let c1 := Config.user c u
      match up.2 with
      | some pw => Except.ok (Config.password c1 (pctDecode pw), rest)
      | none => Except.ok (c1, rest)

/-- The per-chunk host/port split of `UrlParser::parse_host`: a chunk
starting with `[` must contain `]`; the bracketed text is the host and the
remainder must be empty or `:port`.  Other chunks split once on `:`. -/
def chunkHostPort (chunk : List Char) :
    Except CfgErr (List Char × Option (List Char)) :=
  match chunk with
  | '[' :: rest =>
    match takeUntil [']'] rest with
    | none => Except.error (CfgErr.invalidValue ("host".data))
    | some (h, t) =>
      match t.drop 1 with
      | ':' :: p => Except.ok (h, some p)
      | [] => Except.ok (h, none)
      | _ => Except.error (CfgErr.invalidValue ("host".data))
  | _ => Except.ok (splitOnce ':' chunk)

/-- The body of `UrlParser::parse_host`'s `for chunk` loop: apply the host
token via `host_param`, then decode the port token (default `"5432"`) and
apply it through `param("port", ...)`. -/
def applyHostChunk (c : Config.Inner) (chunk : List Char) :
    Except CfgErr Config.Inner :=
  match chunkHostPort chunk with
  | Except.error e => Except.error e
  | Except.ok (h, p) =>
    match hostParam c h with
    | Except.error e => Except.error e
    | Except.ok c1 =>
      match decodeStr (p.getD ("5432".data)) with
      | none => Except.error CfgErr.decodeErr
      | some pd => paramE c1 ("port".data) pd

/-- `UrlParser::parse_host`: text before the first `/` or `?` (or all of
the input); an empty host section is accepted silently, otherwise each
comma-separated chunk is applied in order. -/
def parseHost (c : Config.Inner) (s : List Char) :
    Except CfgErr (Config.Inner × List Char) :=
  let hp := match takeUntil ['/', '?'] s with
    | some p => p
    | none => (s, [])
  if hp.1 = [] then Except.ok (c, hp.2)
  else
    match (splitOnChar ',' hp.1).foldlM applyHostChunk c with
    | Except.ok c1 => Except.ok (c1, hp.2)
    | Except.error e => Except.error e

/-- `UrlParser::parse_path`: a leading `/` introduces the database name,
read up to `?` (or the end) and decoded; an empty name is ignored. -/
def parsePath (c : Config.Inner) (s : List Char) :
    Except CfgErr (Config.Inner × List Char) :=
  match s with
  | c0 :: rest =>
    if c0 = '/' then
      let dp := match takeUntil ['?'] rest with
        | some p => p
        | none => (rest, [])
      if dp.1 = [] then Except.ok (c, dp.2)
      else
        match decodeStr dp.1 with
        | some d => Except.ok (Config.dbname c d, dp.2)
        | none => Except.error CfgErr.decodeErr
    else Except.ok (c, c0 :: rest)
  | [] => Except.ok (c, [])

/-- The `while !self.s.is_empty()` loop of `UrlParser::parse_params`: the
key is the text before the first `=` anywhere in the rest of the input
(its absence is the "unterminated parameter" error), the value the text
before the next `&` (or everything).  A decoded key equal to `host` goes
through `host_param` on the raw value; anything else decodes the value and
applies `param`. -/
def parseParamsLoop (cfg : Config.Inner) (s : List Char) :
    Except CfgErr Config.Inner :=
  match s with
  | [] => Except.ok cfg
  | c0 :: s0 =>
    match h1 : takeUntil ['='] (c0 :: s0) with
    | none => Except.error CfgErr.unterminatedParam
    | some (keyRaw, rest1) =>
      match decodeStr keyRaw with
      | none => Except.error CfgErr.decodeErr
      | some key =>
        match h2 : takeUntil ['&'] (rest1.drop 1) with
        | some (value, rest3) =>
          if key = "host".data then
            match hostParam cfg value with
            | Except.error e => Except.error e
            | Except.ok cfg1 => parseParamsLoop cfg1 (rest3.drop 1)
          else
            match decodeStr value with
            | none => Except.error CfgErr.decodeErr
            | some v =>
              match paramE cfg key v with
              | Except.error e => Except.error e
              | Except.ok cfg1 => parseParamsLoop cfg1 (rest3.drop 1)
        | none =>
          if key = "host".data then
            match hostParam cfg (rest1.drop 1) with
            | Except.error e => Except.error e
            | Except.ok cfg1 => parseParamsLoop cfg1 []
          else
            match decodeStr (rest1.drop 1) with
            | none => Except.error CfgErr.decodeErr
            | some v =>
              match paramE cfg key v with
              | Except.error e => Except.error e
              | Except.ok cfg1 => parseParamsLoop cfg1 []
termination_by s.length
decreasing_by
  all_goals
    obtain ⟨e1, -, c1, t1, e3, -⟩ := takeUntil_some h1
  · obtain ⟨f1, -, c2, t2, f3, -⟩ := takeUntil_some h2
    have g1 := congrArg List.length e1
    have g2 := congrArg List.length f1
    subst e3; subst f3
    simp only [List.length_append, List.length_cons, List.length_drop] at g1 g2 ⊢
    omega
  · obtain ⟨f1, -, c2, t2, f3, -⟩ := takeUntil_some h2
    have g1 := congrArg List.length e1
    have g2 := congrArg List.length f1
    subst e3; subst f3
    simp only [List.length_append, List.length_cons, List.length_drop] at g1 g2 ⊢
    omega
  · simp
  · simp

/-- `UrlParser::parse_params`: nothing to do unless the remaining input
starts with `?`. -/
def parseParams (cfg : Config.Inner) (s : List Char) :
    Except CfgErr Config.Inner :=
  match s with
  | c0 :: rest => if c0 = '?' then parseParamsLoop cfg rest else Except.ok cfg
  | [] => Except.ok cfg

/-- The section pipeline of `UrlParser::parse` after prefix removal. -/
def urlParseBody (s : List Char) : Except CfgErr Config.Inner :=
  match parseCredentials Config.new s with
  | Except.error e => Except.error e
  | Except.ok (c1, s1) =>
    match parseHost c1 s1 with
    | Except.error e => Except.error e
    | Except.ok (c2, s2) =>
      match parsePath c2 s2 with
      | Except.error e => Except.error e
      | Except.ok (c3, s3) => parseParams c3 s3

/-- `UrlParser::parse`: `none` when the scheme does not match. -/
def urlParse (s : List Char) : Except CfgErr (Option Config.Inner) :=
  match removeUrlScheme s with
  | none => Except.ok none
  | some s1 =>
    match urlParseBody s1 with
    | Except.ok c => Except.ok (some c)
    | Except.error e => Except.error e

/-- `<Config as FromStr>::from_str`: try the URL grammar, fall back to the
key/value grammar when the scheme is absent. -/
def fromStr (s : List Char) : Except CfgErr Config.Inner :=
  match urlParse s with
  | Except.error e => Except.error e
  | Except.ok (some c) => Except.ok c
  | Except.ok none => Parser.parse s


/-- A model of the `std::sync::Arc` heap as this module uses it: a list of
cells, each holding an `Inner` value and its strong reference count.  The
module never creates weak references, so only strong counts appear.  A
`Config` value is an index (`Ref`) into the store. -/
structure Store where
  cells : List (Config.Inner × Nat)
  deriving DecidableEq, Repr

/-- Dereference: the `Inner` behind a `Config`'s `Arc` pointer. -/
def readRef (st : Store) (r : Nat) : Option Config.Inner :=
  (st.cells.get? r).map Prod.fst

/-- The strong count of a cell (0 for a dangling index). -/
def refCount (st : Store) (r : Nat) : Nat :=
  ((st.cells.get? r).map Prod.snd).getD 0

/-- `Config::clone` (the derived `Clone` calls `Arc::clone`): the same
pointer, one more strong reference. -/
def cloneRef (st : Store) (r : Nat) : Store :=
  match st.cells.get? r with
  | some (v, n) => ⟨st.cells.set r (v, n + 1)⟩
  | none => st

/-- `Arc::make_mut`: with a strong count of 1 the cell is reused in
place; otherwise the value is copied into a fresh cell with count 1 and
the caller's reference moves there, releasing one count on the old cell. -/
def makeMut (st : Store) (r : Nat) : Store × Nat :=
  match st.cells.get? r with
  | some (v, n) =>
    if n = 1 then (st, r)
    else (⟨(st.cells.set r (v, n - 1)) ++ [(v, 1)]⟩, st.cells.length)
  | none => (st, r)

/-- A typed setter acting on a shared `Config`: `Arc::make_mut` followed by
the field mutation `f` (each `Config::xxx` setter is such an `f`, e.g.
`fun i => Config.user i u`). -/
def mutateRef (f : Config.Inner → Config.Inner) (st : Store) (r : Nat) :
    Store × Nat :=
  let p := makeMut st r
  match p.1.cells.get? p.2 with
  | some (v, n) => (⟨p.1.cells.set p.2 (f v, n)⟩, p.2)
  | none => p

/-- The ports the `"port"` arm appends: one entry per component up to (and
excluding) the first component that fails to parse; an empty component
stands for 5432. -/
def portsApplied : List (List Char) → List Nat
  | [] => []
  | p :: rest =>
    if p = [] then 5432 :: portsApplied rest
    else
      match parseU16 p with
      | some n => n :: portsApplied rest
      | none => []

/-- Is one comma-component of a `port` value acceptable? -/
def portCompOk (p : List Char) : Bool := p = [] || (parseU16 p).isSome

/-- The port one acceptable comma-component denotes. -/
def portCompVal (p : List Char) : Nat :=
  if p = [] then 5432 else (parseU16 p).getD 0

/-- The key names `Config::param` recognizes, in source order. -/
def recognizedKeys : List (List Char) :=
  ["user".data, "password".data, "dbname".data, "options".data,
   "application_name".data, "host".data, "port".data,
   "connect_timeout".data, "keepalives".data, "keepalives_idle".data,
   "target_session_attrs".data]

/-- Does the quoted-value scan run off the end of the input, i.e. is there
no closing quote at an unescaped position? -/
def noClose : List Char → Bool
  | [] => true
  | c :: rest =>
    if c = squote then false
    else if c = bslash then
      match rest with
      | [] => true
      | _ :: rest2 => noClose rest2
    else noClose rest

lemma portApply_eq (comps : List (List Char)) (c : Config.Inner) :
    portApply c comps =
      ({ c with port := c.port ++ portsApplied comps },
       if comps.all portCompOk then none
       else some (CfgErr.invalidValue ("port".data))) := by
  induction comps generalizing c with
  | nil => simp [portApply, portsApplied]
  | cons p rest ih =>
    rw [portApply]
    by_cases hp : p = []
    · subst hp
      simp only [if_pos rfl]
      rw [ih]
      simp [portsApplied, portCompOk, Config.port, List.all_cons]
    · simp only [if_neg hp]
      cases hu : parseU16 p with
      | some n =>
        simp only []
        rw [ih]
        simp [portsApplied, portCompOk, hp, hu, Config.port, List.all_cons]
      | none =>
        simp [portsApplied, portCompOk, hp, hu, List.all_cons]

/-- Claim C4: `apply("port", v)` splits `v` on `,`; an empty component
appends the default port 5432, a component parsing as a `u16` appends that
value in order, and a component that does not parse makes the call fail
with an invalid-value error naming `port`; in particular
`port=1234,,5678` yields the ports `[1234, 5432, 5678]`. -/
theorem claimC4 :
    (∀ (c : Config.Inner) (v : List Char),
      Config.param c ("port".data) v =
        ({ c with port := c.port ++ portsApplied (splitOnChar ',' v) },
         if (splitOnChar ',' v).all portCompOk then none
         else some (CfgErr.invalidValue ("port".data)))) ∧
    (∀ comps : List (List Char), comps.all portCompOk = true →
      portsApplied comps = comps.map portCompVal) ∧
    Config.param Config.new ("port".data) ("1234,,5678".data) =
      ({ Config.new with port := [1234, 5432, 5678] }, none) := by
  refine ⟨?_, ?_, ?_⟩
  · intro c v
    have hd : Config.param c ("port".data) v = portApply c (splitOnChar ',' v) := rfl
    rw [hd, portApply_eq]
  · intro comps h
    induction comps with
    | nil => simp [portsApplied]
    | cons p rest ih =>
      simp only [List.all_cons, Bool.and_eq_true] at h
      rw [portsApplied]
      by_cases hp : p = []
      · simp [hp, portCompVal, ih h.2]
      · have h1 := h.1
        simp only [portCompOk, Bool.or_eq_true, decide_eq_true_eq] at h1
        cases hu : parseU16 p with
        | some n => simp [hp, hu, portCompVal, ih h.2]
        | none =>
          rcases h1 with h1 | h1
          · exact absurd h1 hp
          · rw [hu] at h1; simp at h1
  · rfl

theorem claimC4_witness :
    (splitOnChar ',' ("1,2".data)).all portCompOk = true ∧
      portsApplied (splitOnChar ',' ("1,2".data)) =
        (splitOnChar ',' ("1,2".data)).map portCompVal :=
  ⟨by decide, claimC4.2.1 _ (by decide)⟩

/-- Claim C6: `apply("connect_timeout", v)` parses `v` as a signed 64-bit
integer count of seconds and fails with an invalid-value error when
parsing fails; a strictly positive result sets `connect_timeout` to that
many seconds, while zero or a negative result leaves the call successful
but the field unchanged. -/
theorem claimC6 : ∀ (c : Config.Inner) (v : List Char),
    (parseI64 v = none →
      Config.param c ("connect_timeout".data) v =
        (c, some (CfgErr.invalidValue ("connect_timeout".data)))) ∧
    (∀ t : Int, parseI64 v = some t → 0 < t →
      Config.param c ("connect_timeout".data) v =
        ({ c with connect_timeout := some t.toNat }, none)) ∧
    (∀ t : Int, parseI64 v = some t → t ≤ 0 →
      Config.param c ("connect_timeout".data) v = (c, none)) := by
  intro c v
  have hbase : Config.param c ("connect_timeout".data) v =
      (match parseI64 v with
       | some t => (if 0 < t then Config.connect_timeout c t.toNat else c, none)
       | none => (c, some (CfgErr.invalidValue ("connect_timeout".data)))) := rfl
  refine ⟨?_, ?_, ?_⟩
  · intro h; rw [hbase, h]
  · intro t h ht
    rw [hbase, h]
    simp [if_pos ht, Config.connect_timeout]
  · intro t h ht
    rw [hbase, h]
    simp [if_neg (not_lt.mpr ht)]

theorem claimC6_witness :
    (parseI64 ("abc".data) = none ∧
      Config.param Config.new ("connect_timeout".data) ("abc".data) =
        (Config.new, some (CfgErr.invalidValue ("connect_timeout".data)))) ∧
    (parseI64 ("10".data) = some 10 ∧ (0 : Int) < 10 ∧
      Config.param Config.new ("connect_timeout".data) ("10".data) =
        ({ Config.new with connect_timeout := some 10 }, none)) ∧
    (parseI64 ("-5".data) = some (-5) ∧ (-5 : Int) ≤ 0 ∧
      Config.param Config.new ("connect_timeout".data) ("-5".data) =
        (Config.new, none)) :=
  ⟨⟨by decide, (claimC6 Config.new ("abc".data)).1 (by decide)⟩,
   ⟨by decide, by decide,
     (claimC6 Config.new ("10".data)).2.1 10 (by decide) (by decide)⟩,
   ⟨by decide, by decide,
     (claimC6 Config.new ("-5".data)).2.2 (-5) (by decide) (by decide)⟩⟩

/-- Claim C1 (counterexample): `apply("port", "1234,abc")` returns an
invalid-value error, yet it has already appended 1234, so the
configuration is not left unchanged, and a later successful call sees the
leftover port. -/
theorem claimC1_counterexample :
    (Config.param Config.new ("port".data) ("1234,abc".data)).2 =
      some (CfgErr.invalidValue ("port".data)) ∧
    (Config.param Config.new ("port".data) ("1234,abc".data)).1 ≠ Config.new ∧
    (Config.param Config.new ("port".data) ("1234,abc".data)).1.port = [1234] ∧
    (Config.param
        (Config.param Config.new ("port".data) ("1234,abc".data)).1
        ("port".data) ("1".data)).1.port = [1234, 1] := by
  refine ⟨rfl, ?_, rfl, rfl⟩
  decide

/-- Claim C1 (amended): a failing `apply` call leaves the configuration
unchanged for every recognized key except `port`; a failing
`apply("port", v)` leaves every field unchanged except `port`, to which
exactly the values of the comma-components preceding the first invalid
component have been appended. -/
theorem claimC1_amended :
    (∀ (c : Config.Inner) (k v : List Char), k ∈ recognizedKeys →
      k ≠ "port".data → (Config.param c k v).2.isSome →
      (Config.param c k v).1 = c) ∧
    (∀ (c : Config.Inner) (v : List Char),
      (Config.param c ("port".data) v).1 =
        { c with port := c.port ++ portsApplied (splitOnChar ',' v) }) := by
  constructor
  · intro c k v hmem hne hsome
    simp only [recognizedKeys, List.mem_cons, List.mem_singleton] at hmem
    rcases hmem with h | h | h | h | h | h | h | h | h | h | h | h
    · subst h; exact absurd hsome (by simp [Config.param])
    · subst h; exact absurd hsome (by simp [Config.param])
    · subst h; exact absurd hsome (by simp [Config.param])
    · subst h; exact absurd hsome (by simp [Config.param])
    · subst h; exact absurd hsome (by simp [Config.param])
    · subst h; exact absurd hsome (by simp [Config.param])
    · exact absurd h hne
    · subst h
      have hbase : Config.param c ("connect_timeout".data) v =
          (match parseI64 v with
           | some t => (if 0 < t then Config.connect_timeout c t.toNat else c, none)
           | none => (c, some (CfgErr.invalidValue ("connect_timeout".data)))) := rfl
      rw [hbase] at hsome
      rw [hbase]
      cases hcase : parseI64 v with
      | some t => rw [hcase] at hsome; simp at hsome
      | none => rfl
    · subst h
      have hbase : Config.param c ("keepalives".data) v =
          (match parseU64 v with
           | some k => (Config.keepalives c (k ≠ 0), none)
           | none => (c, some (CfgErr.invalidValue ("keepalives".data)))) := rfl
      rw [hbase] at hsome
      rw [hbase]
      cases hcase : parseU64 v with
      | some t => rw [hcase] at hsome; simp at hsome
      | none => rfl
    · subst h
      have hbase : Config.param c ("keepalives_idle".data) v =
          (match parseI64 v with
           | some t => (if 0 < t then Config.keepalives_idle c t.toNat else c, none)
           | none => (c, some (CfgErr.invalidValue ("keepalives_idle".data)))) := rfl
      rw [hbase] at hsome
      rw [hbase]
      cases hcase : parseI64 v with
      | some t => rw [hcase] at hsome; simp at hsome
      | none => rfl
    · subst h
      have hbase : Config.param c ("target_session_attrs".data) v =
          (if v = "any".data then
            (Config.target_session_attrs c TargetSessionAttrs.Any, none)
           else if v = "read-write".data then
            (Config.target_session_attrs c TargetSessionAttrs.ReadWrite, none)
           else (c, some (CfgErr.invalidValue ("target_session_attrs".data)))) := rfl
      rw [hbase] at hsome
      rw [hbase]
      by_cases h1 : v = "any".data
      · simp [h1] at hsome
      · by_cases h2 : v = "read-write".data
        · simp [h1, h2] at hsome
        · simp [h1, h2]
    · simp at h
  · intro c v
    have hd : Config.param c ("port".data) v = portApply c (splitOnChar ',' v) := rfl
    rw [hd, portApply_eq]

theorem claimC1_amended_witness :
    (("connect_timeout".data) ∈ recognizedKeys ∧
      ("connect_timeout".data) ≠ ("port".data) ∧
      (Config.param Config.new ("connect_timeout".data) ("x".data)).2.isSome = true ∧
      (Config.param Config.new ("connect_timeout".data) ("x".data)).1 = Config.new) ∧
    (Config.param Config.new ("port".data) ("1234,abc".data)).1 =
      { Config.new with
          port := Config.new.port ++ portsApplied (splitOnChar ',' ("1234,abc".data)) } :=
  ⟨⟨by decide, by decide, by decide,
    claimC1_amended.1 Config.new _ _ (by decide) (by decide) (by decide)⟩,
   claimC1_amended.2 Config.new ("1234,abc".data)⟩

/-- Claim C2: cloning a configuration and then mutating the clone through
a typed setter (any `Inner` mutation applied through `Arc::make_mut`)
leaves the value observed through the original reference — and through
any sibling clone, which holds the same reference — equal to its
pre-mutation state; the first mutation after the clone materializes a
private copy: a fresh cell, distinct from the shared one, with strong
count 1. -/
theorem claimC2 : ∀ (st : Store) (r : Nat) (v : Config.Inner)
    (f : Config.Inner → Config.Inner),
    readRef st r = some v → 1 ≤ refCount st r →
    readRef (mutateRef f (cloneRef st r) r).1 r = some v ∧
    readRef (mutateRef f (cloneRef st r) r).1 (mutateRef f (cloneRef st r) r).2 =
      some (f v) ∧
    (mutateRef f (cloneRef st r) r).2 ≠ r ∧
    refCount (mutateRef f (cloneRef st r) r).1 (mutateRef f (cloneRef st r) r).2 = 1 := by
  intro st r v f hread hcount
  obtain ⟨n, hget⟩ : ∃ n, st.cells.get? r = some (v, n) := by
    unfold readRef at hread
    cases hg : st.cells.get? r with
    | none => rw [hg] at hread; simp at hread
    | some p =>
      obtain ⟨pv, pn⟩ := p
      rw [hg] at hread
      simp at hread
      subst hread
      exact ⟨pn, rfl⟩
  have hn : 1 ≤ n := by
    unfold refCount at hcount
    rw [hget] at hcount
    simpa using hcount
  have hr : r < st.cells.length := by
    by_contra hge
    rw [List.get?_eq_getElem?, List.getElem?_eq_none (by omega)] at hget
    simp at hget
  have hclone : (cloneRef st r).cells = st.cells.set r (v, n + 1) := by
    unfold cloneRef
    rw [hget]
  have hgetc : (cloneRef st r).cells.get? r = some (v, n + 1) := by
    rw [hclone, List.get?_eq_getElem?, List.getElem?_set_self (by simpa using hr)]
  have hlen : (cloneRef st r).cells.length = st.cells.length := by
    rw [hclone, List.length_set]
  have hmm : makeMut (cloneRef st r) r =
      (⟨((cloneRef st r).cells.set r (v, n)) ++ [(v, 1)]⟩, (cloneRef st r).cells.length) := by
    unfold makeMut
    simp only [hgetc]
    rw [if_neg (by omega)]
    simp
  have hmid : ((cloneRef st r).cells.set r (v, n)).length = st.cells.length := by
    rw [List.length_set, hlen]
  have hgetL : (((cloneRef st r).cells.set r (v, n)) ++ [(v, 1)]).get? st.cells.length
      = some (v, 1) := by
    rw [List.get?_eq_getElem?]
    conv_lhs => rw [← hmid]
    rw [List.getElem?_concat_length]
  have hmut : mutateRef f (cloneRef st r) r =
      (⟨(((cloneRef st r).cells.set r (v, n)) ++ [(v, 1)]).set st.cells.length (f v, 1)⟩,
        st.cells.length) := by
    unfold mutateRef
    rw [hmm]
    simp only [hlen, List.get?_eq_getElem?] at hgetL ⊢
    simp only [hgetL]
  rw [hmut]
  refine ⟨?_, ?_, by omega, ?_⟩
  · unfold readRef
    simp only [List.get?_eq_getElem?]
    rw [List.getElem?_set_ne (by omega)]
    rw [List.getElem?_append, if_pos (by omega)]
    rw [List.getElem?_set_self (by rw [hlen]; exact hr)]
    rfl
  · unfold readRef
    simp only [List.get?_eq_getElem?]
    rw [List.getElem?_set_self (by simp [hmid])]
    rfl
  · unfold refCount
    simp only [List.get?_eq_getElem?]
    rw [List.getElem?_set_self (by simp [hmid])]
    rfl

theorem claimC2_witness :
    (readRef ⟨[(Config.new, 1)]⟩ 0 = some Config.new ∧
      1 ≤ refCount ⟨[(Config.new, 1)]⟩ 0) ∧
    readRef (mutateRef (fun i => Config.user i ("alice".data))
        (cloneRef ⟨[(Config.new, 1)]⟩ 0) 0).1 0 = some Config.new ∧
    readRef (mutateRef (fun i => Config.user i ("alice".data))
        (cloneRef ⟨[(Config.new, 1)]⟩ 0) 0).1
        (mutateRef (fun i => Config.user i ("alice".data))
          (cloneRef ⟨[(Config.new, 1)]⟩ 0) 0).2 =
      some (Config.user Config.new ("alice".data)) ∧
    (mutateRef (fun i => Config.user i ("alice".data))
        (cloneRef ⟨[(Config.new, 1)]⟩ 0) 0).2 ≠ 0 ∧
    refCount (mutateRef (fun i => Config.user i ("alice".data))
        (cloneRef ⟨[(Config.new, 1)]⟩ 0) 0).1
        (mutateRef (fun i => Config.user i ("alice".data))
          (cloneRef ⟨[(Config.new, 1)]⟩ 0) 0).2 = 1 :=
  ⟨⟨rfl, by decide⟩,
   claimC2 ⟨[(Config.new, 1)]⟩ 0 Config.new
     (fun i => Config.user i ("alice".data)) rfl (by decide)⟩

/-- Claim C8: the format dispatcher runs the URL grammar exactly when the
input starts with `postgres://` or `postgresql://` and otherwise runs the
key/value grammar; on every input it yields either a configuration or a
single terminal error. -/
theorem claimC8 : ∀ s : List Char,
    (fromStr s = match removeUrlScheme s with
      | some s1 => urlParseBody s1
      | none => Parser.parse s) ∧
    (removeUrlScheme s).isSome =
      (("postgres://".data).isPrefixOf s || ("postgresql://".data).isPrefixOf s) ∧
    ((∃ c, fromStr s = Except.ok c) ∨ (∃ e, fromStr s = Except.error e)) := by
  intro s
  refine ⟨?_, ?_, ?_⟩
  · unfold fromStr urlParse
    cases removeUrlScheme s with
    | none => rfl
    | some s1 =>
      cases h : urlParseBody s1 with
      | ok c => simp [h]
      | error e => simp [h]
  · unfold removeUrlScheme
    by_cases h1 : ("postgres://".data).isPrefixOf s
    · simp [h1]
    · by_cases h2 : ("postgresql://".data).isPrefixOf s <;> simp [h1, h2]
  · cases h : fromStr s with
    | ok c => exact Or.inl ⟨c, rfl⟩
    | error e => exact Or.inr ⟨e, rfl⟩

lemma dropWhile_append_of_all {p : Char → Bool} {w t : List Char}
    (h : ∀ c ∈ w, p c = true) : (w ++ t).dropWhile p = t.dropWhile p := by
  induction w with
  | nil => rfl
  | cons c rest ih =>
    rw [List.cons_append, List.dropWhile_cons, if_pos (h c (by simp))]
    exact ih (fun x hx => h x (by simp [hx]))

lemma parseLoop_stop {cfg : Config.Inner} {s : List Char}
    (h : Parser.parameter s = Except.ok none) :
    Parser.parseLoop cfg s = Except.ok cfg := by
  rw [Parser.parseLoop.eq_def]
  split
  · rename_i e heq
    rw [h] at heq
    exact absurd heq (by simp)
  · rfl
  · rename_i k v rest heq
    rw [h] at heq
    exact absurd heq (by simp)

lemma parameter_stop_at_eq {w rest : List Char}
    (hw : ∀ c ∈ w, isWspace c = true) :
    Parser.parameter (w ++ '=' :: rest) = Except.ok none := by
  unfold Parser.parameter
  rw [dropWhile_append_of_all hw]
  simp [List.dropWhile_cons, List.takeWhile_cons, show isWspace '=' = false from rfl,
        show kwChar '=' = false from rfl]

/-- Claim C9: in the key/value grammar, whenever the next non-whitespace
character at a parameter boundary is `=`, the keyword is empty and parsing
stops successfully right there, silently ignoring the remaining input; in
particular `"=foo"`, the empty input and all-whitespace input all parse to
the default configuration. -/
theorem claimC9 :
    (∀ w rest : List Char, (∀ c ∈ w, isWspace c = true) →
      Parser.parameter (w ++ '=' :: rest) = Except.ok none) ∧
    (∀ (cfg : Config.Inner) (s : List Char),
      Parser.parameter s = Except.ok none → Parser.parseLoop cfg s = Except.ok cfg) ∧
    (∀ (cfg : Config.Inner) (w rest : List Char), (∀ c ∈ w, isWspace c = true) →
      Parser.parseLoop cfg (w ++ '=' :: rest) = Except.ok cfg) ∧
    Parser.parse ("=foo".data) = Except.ok Config.new ∧
    Parser.parse [] = Except.ok Config.new ∧
    (∀ w : List Char, (∀ c ∈ w, isWspace c = true) →
      Parser.parse w = Except.ok Config.new) := by
  refine ⟨fun w rest hw => parameter_stop_at_eq hw,
          fun cfg s h => parseLoop_stop h, ?_, ?_, ?_, ?_⟩
  · intro cfg w rest hw
    exact parseLoop_stop (parameter_stop_at_eq hw)
  · exact parseLoop_stop rfl
  · exact parseLoop_stop rfl
  · intro w hw
    apply parseLoop_stop
    simp only [Parser.parameter]
    rw [List.dropWhile_eq_nil_iff.mpr hw]
    rfl

theorem claimC9_witness :
    (∀ c ∈ [' ', ' '], isWspace c = true) ∧
      Parser.parse [' ', ' '] = Except.ok Config.new :=
  ⟨by decide, claimC9.2.2.2.2.2 [' ', ' '] (by decide)⟩

lemma takeUntil_first {ends a t : List Char} {e : Char}
    (ha : ∀ c ∈ a, c ∉ ends) (he : e ∈ ends) :
    takeUntil ends (a ++ e :: t) = some (a, e :: t) := by
  induction a with
  | nil => rw [List.nil_append, takeUntil.eq_def]; simp [he]
  | cons c rest ih =>
    rw [List.cons_append, takeUntil.eq_def]
    simp only [if_neg (ha c (by simp))]
    rw [ih (fun x hx => ha x (by simp [hx]))]

/-- Claim C10: whenever a credentials section is present (there is an `@`,
in particular one before any `/` or `?`), the `user` field is always set,
to the percent-decoded text before the first `:` — possibly the empty
string — so `postgres://@localhost` yields `user = some ""`, not an
absent user. -/
theorem claimC10 :
    (∀ (c : Config.Inner) (a rest : List Char), '@' ∉ a →
      parseCredentials c (a ++ '@' :: rest) =
        (match decodeStr (splitOnce ':' a).1 with
         | none => Except.error CfgErr.decodeErr
         | some u =>
           match (splitOnce ':' a).2 with
           | some pw =>
             Except.ok (Config.password (Config.user c u) (pctDecode pw), rest)
           | none => Except.ok (Config.user c u, rest))) ∧
    (∀ (c c1 : Config.Inner) (a rest r1 : List Char), '@' ∉ a →
      parseCredentials c (a ++ '@' :: rest) = Except.ok (c1, r1) →
      ∃ u, decodeStr (splitOnce ':' a).1 = some u ∧ c1.user = some u) ∧
    fromStr ("postgres://@localhost".data) =
      Except.ok { Config.new with
        user := some [], host := [Host.Tcp ("localhost".data)], port := [5432] } := by
  have hmain : ∀ (c : Config.Inner) (a rest : List Char), '@' ∉ a →
      parseCredentials c (a ++ '@' :: rest) =
        (match decodeStr (splitOnce ':' a).1 with
         | none => Except.error CfgErr.decodeErr
         | some u =>
           match (splitOnce ':' a).2 with
           | some pw =>
             Except.ok (Config.password (Config.user c u) (pctDecode pw), rest)
           | none => Except.ok (Config.user c u, rest)) := by
    intro c a rest ha
    unfold parseCredentials
    rw [takeUntil_first (fun x hx hmem => ha (by simp at hmem; subst hmem; exact hx))
      (by simp)]
    rfl
  refine ⟨hmain, ?_, ?_⟩
  · intro c c1 a rest r1 ha heq
    rw [hmain c a rest ha] at heq
    cases hd : decodeStr (splitOnce ':' a).1 with
    | none => rw [hd] at heq; exact absurd heq (by simp)
    | some u =>
      rw [hd] at heq
      refine ⟨u, rfl, ?_⟩
      cases hp : (splitOnce ':' a).2 with
      | some pw =>
        rw [hp] at heq
        simp only [Except.ok.injEq, Prod.mk.injEq] at heq
        rw [← heq.1]
        rfl
      | none =>
        rw [hp] at heq
        simp only [Except.ok.injEq, Prod.mk.injEq] at heq
        rw [← heq.1]
        rfl
  · rfl

theorem claimC10_witness :
    ('@' ∉ ("u".data)) ∧
      parseCredentials Config.new (("u".data) ++ '@' :: ("h".data)) =
        (match decodeStr (splitOnce ':' ("u".data)).1 with
         | none => Except.error CfgErr.decodeErr
         | some u =>
           match (splitOnce ':' ("u".data)).2 with
           | some pw =>
             Except.ok (Config.password (Config.user Config.new u) (pctDecode pw),
               "h".data)
           | none => Except.ok (Config.user Config.new u, "h".data)) :=
  ⟨by decide, claimC10.1 Config.new ("u".data) ("h".data) (by decide)⟩

lemma quotedValue_noClose {v : List Char} (h : noClose v = true) :
    quotedValue v = Except.error CfgErr.unterminatedQuote := by
  induction v using quotedValue.induct with
  | case1 => rfl
  | case2 rest =>
    rw [noClose.eq_def] at h
    simp at h
  | case3 hne => rfl
  | case4 c rest p hp hne ih =>
    rw [noClose.eq_def] at h
    simp [show ¬bslash = squote from by decide] at h
    rw [ih h] at hp
    exact absurd hp (by simp)
  | case5 c rest e he hne ih =>
    rw [noClose.eq_def] at h
    simp [show ¬bslash = squote from by decide] at h
    rw [quotedValue.eq_3]
    simp [show ¬bslash = squote from by decide, ih h]
  | case6 c rest hq hb p hp ih =>
    rw [noClose.eq_def] at h
    simp only [if_neg hq, if_neg hb] at h
    rw [ih h] at hp
    exact absurd hp (by simp)
  | case7 c rest hq hb e he ih =>
    rw [noClose.eq_def] at h
    simp only [if_neg hq, if_neg hb] at h
    cases rest with
    | nil =>
      rw [quotedValue.eq_2]
      simp only [if_neg hq, if_neg hb]
      rw [show quotedValue [] = Except.error CfgErr.unterminatedQuote from rfl]
    | cons c2 rest2 =>
      rw [quotedValue.eq_3]
      simp only [if_neg hq, if_neg hb]
      rw [ih h]

lemma value_unterminated {v : List Char} (h : noClose v = true) :
    Parser.value (squote :: v) = Except.error CfgErr.unterminatedQuote := by
  have hred : Parser.value (squote :: v) =
      (match quotedValue v with
       | Except.ok (v1, r) =>
         match r with
         | c2 :: r2 =>
           if c2 = squote then Except.ok (v1, r2)
           else Except.error (CfgErr.unexpectedChar squote c2)
         | [] => Except.error CfgErr.unexpectedEof
       | Except.error e => Except.error e) := by
    unfold Parser.value
    simp
  rw [hred, quotedValue_noClose h]

lemma parameter_unterminated {w v : List Char} (hw : ∀ c ∈ w, isWspace c = true)
    (h : noClose v = true) :
    Parser.parameter (w ++ ("user=".data) ++ squote :: v) =
      Except.error CfgErr.unterminatedQuote := by
  unfold Parser.parameter
  rw [List.append_assoc, dropWhile_append_of_all hw]
  rw [show ("user=".data) ++ squote :: v = 'u' :: 's' :: 'e' :: 'r' :: '=' :: squote :: v from rfl]
  simp only [List.dropWhile_cons, List.takeWhile_cons,
    show isWspace 'u' = false from rfl, show isWspace '=' = false from rfl,
    show isWspace squote = false from rfl,
    show kwChar 'u' = true from rfl, show kwChar 's' = true from rfl,
    show kwChar 'e' = true from rfl, show kwChar 'r' = true from rfl,
    show kwChar '=' = false from rfl,
    Bool.false_eq_true, if_false, if_true]
  rw [value_unterminated h]
  simp

lemma parseLoop_err {cfg : Config.Inner} {s : List Char} {e : CfgErr}
    (h : Parser.parameter s = Except.error e) :
    Parser.parseLoop cfg s = Except.error e := by
  rw [Parser.parseLoop.eq_def]
  split
  · rename_i e2 heq
    rw [h] at heq
    simp only [Except.error.injEq] at heq
    rw [heq]
  · rename_i heq
    rw [h] at heq
    exact absurd heq (by simp)
  · rename_i k v rest heq
    rw [h] at heq
    exact absurd heq (by simp)

lemma parseLoop_step {cfg cfg1 : Config.Inner} {s k v rest : List Char}
    (h : Parser.parameter s = Except.ok (some (k, v, rest)))
    (h2 : paramE cfg k v = Except.ok cfg1) :
    Parser.parseLoop cfg s = Parser.parseLoop cfg1 rest := by
  rw [Parser.parseLoop.eq_def]
  split
  · rename_i e2 heq
    rw [h] at heq
    exact absurd heq (by simp)
  · rename_i heq
    rw [h] at heq
    exact absurd heq (by simp)
  · rename_i k2 v2 rest2 heq
    rw [h] at heq
    simp only [Except.ok.injEq, Option.some.injEq, Prod.mk.injEq] at heq
    obtain ⟨hk, hv, hr⟩ := heq
    subst hk; subst hv; subst hr
    rw [h2]

/-- Claim C7: inside a quoted value, a backslash is dropped and the
following character taken literally (including another backslash or a
quote); a quoted value that reaches end-of-input without an unescaped
closing quote makes the whole parse fail with the unterminated-quote
syntax error, so no configuration value is returned — e.g.
`host=localhost user='abc`. -/
theorem claimC7 :
    (∀ (c : Char) (cs : List Char),
      quotedValue (bslash :: c :: cs) =
        (match quotedValue cs with
         | Except.ok p => Except.ok (c :: p.1, p.2)
         | Except.error e => Except.error e)) ∧
    (∀ v : List Char, noClose v = true →
      quotedValue v = Except.error CfgErr.unterminatedQuote) ∧
    (∀ (cfg : Config.Inner) (w v : List Char), (∀ c ∈ w, isWspace c = true) →
      noClose v = true →
      Parser.parseLoop cfg (w ++ ("user=".data) ++ squote :: v) =
        Except.error CfgErr.unterminatedQuote) ∧
    Parser.parse (("host=localhost user=".data) ++ squote :: ("abc".data)) =
      Except.error CfgErr.unterminatedQuote := by
  refine ⟨?_, fun v h => quotedValue_noClose h, ?_, ?_⟩
  · intro c cs
    rw [quotedValue.eq_3]
    simp [show ¬bslash = squote from by decide]
  · intro cfg w v hw h
    exact parseLoop_err (parameter_unterminated hw h)
  · unfold Parser.parse
    rw [@parseLoop_step Config.new
      { Config.new with host := [Host.Tcp ("localhost".data)] }
      (("host=localhost user=".data) ++ squote :: ("abc".data))
      ("host".data) ("localhost".data)
      ((" ".data) ++ ("user=".data) ++ squote :: ("abc".data))
      rfl rfl]
    exact parseLoop_err (parameter_unterminated (by decide) (by decide))

theorem claimC7_witness :
    (noClose ("abc".data) = true ∧
      quotedValue ("abc".data) = Except.error CfgErr.unterminatedQuote) ∧
    ((∀ c ∈ ([] : List Char), isWspace c = true) ∧ noClose ("abc".data) = true ∧
      Parser.parseLoop Config.new ([] ++ ("user=".data) ++ squote :: ("abc".data)) =
        Except.error CfgErr.unterminatedQuote) :=
  ⟨⟨by decide, claimC7.2.1 ("abc".data) (by decide)⟩,
   ⟨by decide, by decide,
     claimC7.2.2.1 Config.new [] ("abc".data) (by decide) (by decide)⟩⟩

lemma amp_mem_utf8Encode {s : List Char} (h : '&' ∈ s) :
    0x26 ∈ utf8Encode s := by
  unfold utf8Encode
  rw [List.mem_flatten]
  refine ⟨charUtf8 '&', List.mem_map_of_mem charUtf8 h, ?_⟩
  decide

lemma amp_mem_pctDecodeBytes {bs : List Nat} (h : 0x26 ∈ bs) :
    0x26 ∈ pctDecodeBytes bs := by
  induction bs using pctDecodeBytes.induct with
  | case1 => simp at h
  | case2 h1 h2 rest hhex ih =>
    rw [pctDecodeBytes.eq_def]
    simp only [hhex, if_true]
    rcases List.mem_cons.mp h with h | h
    · exact absurd h.symm (by decide)
    · rcases List.mem_cons.mp h with h | h
      · subst h
        exact absurd hhex (by simp [isHexByte])
      · rcases List.mem_cons.mp h with h | h
        · subst h
          exact absurd hhex (by simp [isHexByte])
        · exact List.mem_cons_of_mem _ (ih (by simp [h]))
  | case3 h1 h2 rest hhex ih =>
    rw [pctDecodeBytes.eq_def]
    simp only [hhex, if_false]
    rcases List.mem_cons.mp h with h | h
    · exact absurd h.symm (by decide)
    · exact List.mem_cons_of_mem _ (ih h)
  | case4 b rest hb ih =>
    rw [pctDecodeBytes.eq_3 b rest hb]
    rcases List.mem_cons.mp h with h | h
    · exact h ▸ List.mem_cons_self _ _
    · exact List.mem_cons_of_mem _ (ih h)

lemma utf8Decode_cons (b : Nat) (rest : List Nat) :
    utf8Decode (b :: rest) =
    (if b < 0x80 then
      match utf8Decode rest with
      | some cs => some (Char.ofNat b :: cs)
      | none => none
    else if b < 0xC2 then none
    else if b < 0xE0 then
      match rest with
      | b2 :: rest2 =>
        if contByte b2 then
          match utf8Decode rest2 with
          | some cs => some (Char.ofNat ((b - 0xC0) * 0x40 + (b2 - 0x80)) :: cs)
          | none => none
        else none
      | [] => none
    else if b < 0xF0 then
      match rest with
      | b2 :: b3 :: rest3 =>
        if (if b = 0xE0 then 0xA0 ≤ b2 && b2 ≤ 0xBF
            else if b = 0xED then 0x80 ≤ b2 && b2 ≤ 0x9F
            else contByte b2) && contByte b3 then
          match utf8Decode rest3 with
          | some cs =>
            some (Char.ofNat ((b - 0xE0) * 0x1000 + (b2 - 0x80) * 0x40 + (b3 - 0x80)) :: cs)
          | none => none
        else none
      | _ => none
    else if b < 0xF5 then
      match rest with
      | b2 :: b3 :: b4 :: rest4 =>
        if (if b = 0xF0 then 0x90 ≤ b2 && b2 ≤ 0xBF
            else if b = 0xF4 then 0x80 ≤ b2 && b2 ≤ 0x8F
            else contByte b2) && contByte b3 && contByte b4 then
          match utf8Decode rest4 with
          | some cs =>
            some (Char.ofNat ((b - 0xF0) * 0x40000 + (b2 - 0x80) * 0x1000 +
              (b3 - 0x80) * 0x40 + (b4 - 0x80)) :: cs)
          | none => none
        else none
      | _ => none
    else none) := by
  cases rest with
  | nil => rfl
  | cons b2 r2 =>
    cases r2 with
    | nil => rfl
    | cons b3 r3 =>
      cases r3 with
      | nil => rfl
      | cons b4 r4 => rfl

lemma amp_mem_utf8Decode {bs : List Nat} {cs : List Char}
    (hd : utf8Decode bs = some cs) (hm : 0x26 ∈ bs) : '&' ∈ cs := by
  induction bs using utf8Decode.induct generalizing cs with
  | case1 => simp at hm
  | case2 b rest hb cs2 hrest ih =>
    rw [utf8Decode_cons] at hd
    simp only [if_pos hb, hrest] at hd
    simp only [Option.some.injEq] at hd
    subst hd
    rcases List.mem_cons.mp hm with h | h
    · rw [← h]
      exact List.mem_cons_self _ _
    · exact List.mem_cons_of_mem _ (ih hrest h)
  | case3 b rest hb hrest ih =>
    rw [utf8Decode_cons] at hd
    simp [hb, hrest] at hd
  | case4 b rest h1 h2 =>
    rw [utf8Decode_cons] at hd
    simp [h1, h2] at hd
  | case5 b h1 h2 h3 b2 rest2 hcont cs2 hrest ih =>
    rw [utf8Decode_cons] at hd
    simp only [if_neg h1, if_neg (show ¬b < 0xC2 from h2), if_pos h3, hcont, if_true,
      hrest] at hd
    simp only [Option.some.injEq] at hd
    subst hd
    rcases List.mem_cons.mp hm with h | h
    · omega
    · rcases List.mem_cons.mp h with h | h
      · subst h
        simp [contByte] at hcont
      · exact List.mem_cons_of_mem _ (ih hrest h)
  | case6 b h1 h2 h3 b2 rest2 hcont hrest ih =>
    rw [utf8Decode_cons] at hd
    simp [h1, h2, h3, hcont, hrest] at hd
  | case7 b h1 h2 h3 b2 rest2 hcont =>
    rw [utf8Decode_cons] at hd
    simp [h1, h2, h3, hcont] at hd
  | case8 b h1 h2 h3 =>
    rw [utf8Decode_cons] at hd
    simp [h1, h2, h3] at hd
  | case9 b h1 h2 h3 h4 b2 b3 rest3 hg cs2 hrest ih =>
    rw [utf8Decode_cons] at hd
    simp only [if_neg h1, if_neg h2, if_neg h3, if_pos h4, hg, if_true, hrest] at hd
    simp only [Option.some.injEq] at hd
    subst hd
    rcases List.mem_cons.mp hm with h | h
    · omega
    · rcases List.mem_cons.mp h with h | h
      · subst h
        simp [contByte] at hg
      · rcases List.mem_cons.mp h with h | h
        · subst h
          simp [contByte] at hg
        · exact List.mem_cons_of_mem _ (ih hrest h)
  | case10 b h1 h2 h3 h4 b2 b3 rest3 hg hrest ih =>
    rw [utf8Decode_cons] at hd
    simp [h1, h2, h3, h4, hg, hrest] at hd
  | case11 b h1 h2 h3 h4 b2 b3 rest3 hg =>
    rw [utf8Decode_cons] at hd
    simp [h1, h2, h3, h4, hg] at hd
  | case12 b rest h1 h2 h3 h4 hshape =>
    rw [utf8Decode_cons] at hd
    cases rest with
    | nil => simp [h1, h2, h3, h4] at hd
    | cons b2 r2 =>
      cases r2 with
      | nil => simp [h1, h2, h3, h4] at hd
      | cons b3 r3 => exact absurd rfl (fun heq => hshape b2 b3 r3 heq)
  | case13 b h1 h2 h3 h4 h5 b2 b3 b4 rest4 hg cs2 hrest ih =>
    rw [utf8Decode_cons] at hd
    simp only [if_neg h1, if_neg h2, if_neg h3, if_neg h4, if_pos h5, hg, if_true,
      hrest] at hd
    simp only [Option.some.injEq] at hd
    subst hd
    rcases List.mem_cons.mp hm with h | h
    · omega
    · rcases List.mem_cons.mp h with h | h
      · subst h
        simp [contByte] at hg
      · rcases List.mem_cons.mp h with h | h
        · subst h
          simp [contByte] at hg
        · rcases List.mem_cons.mp h with h | h
          · subst h
            simp [contByte] at hg
          · exact List.mem_cons_of_mem _ (ih hrest h)
  | case14 b h1 h2 h3 h4 h5 b2 b3 b4 rest4 hg hrest ih =>
    rw [utf8Decode_cons] at hd
    simp [h1, h2, h3, h4, h5, hg, hrest] at hd
  | case15 b h1 h2 h3 h4 h5 b2 b3 b4 rest4 hg =>
    rw [utf8Decode_cons] at hd
    simp [h1, h2, h3, h4, h5, hg] at hd
  | case16 b rest h1 h2 h3 h4 h5 hshape =>
    rw [utf8Decode_cons] at hd
    cases rest with
    | nil => simp [h1, h2, h3, h4, h5] at hd
    | cons b2 r2 =>
      cases r2 with
      | nil => simp [h1, h2, h3, h4, h5] at hd
      | cons b3 r3 =>
        cases r3 with
        | nil => simp [h1, h2, h3, h4, h5] at hd
        | cons b4 r4 => exact absurd rfl (fun heq => hshape b2 b3 b4 r4 heq)
  | case17 b rest h1 h2 h3 h4 h5 =>
    rw [utf8Decode_cons] at hd
    simp [h1, h2, h3, h4, h5] at hd

lemma param_of_amp {k : List Char} (hamp : '&' ∈ k) (c : Config.Inner)
    (v : List Char) :
    Config.param c k v = (c, some (CfgErr.unknownOption k)) := by
  have h1 : k ≠ "user".data := by rintro rfl; revert hamp; decide
  have h2 : k ≠ "password".data := by rintro rfl; revert hamp; decide
  have h3 : k ≠ "dbname".data := by rintro rfl; revert hamp; decide
  have h4 : k ≠ "options".data := by rintro rfl; revert hamp; decide
  have h5 : k ≠ "application_name".data := by rintro rfl; revert hamp; decide
  have h6 : k ≠ "host".data := by rintro rfl; revert hamp; decide
  have h7 : k ≠ "port".data := by rintro rfl; revert hamp; decide
  have h8 : k ≠ "connect_timeout".data := by rintro rfl; revert hamp; decide
  have h9 : k ≠ "keepalives".data := by rintro rfl; revert hamp; decide
  have h10 : k ≠ "keepalives_idle".data := by rintro rfl; revert hamp; decide
  have h11 : k ≠ "target_session_attrs".data := by rintro rfl; revert hamp; decide
  unfold Config.param
  simp [h1, h2, h3, h4, h5, h6, h7, h8, h9, h10, h11]

lemma decodeStr_amp {s k : List Char} (hs : '&' ∈ s) (hd : decodeStr s = some k) :
    '&' ∈ k := by
  unfold decodeStr at hd
  exact amp_mem_utf8Decode hd (amp_mem_pctDecodeBytes (amp_mem_utf8Encode hs))

lemma takeUntil_isSome {ends s : List Char} {e : Char} (he : e ∈ ends)
    (hm : e ∈ s) : ∃ pre t, takeUntil ends s = some (pre, t) := by
  induction s with
  | nil => simp at hm
  | cons c rest ih =>
    rw [takeUntil.eq_def]
    by_cases hc : c ∈ ends
    · exact ⟨[], c :: rest, by simp [hc]⟩
    · simp only [if_neg hc]
      have hm2 : e ∈ rest := by
        rcases List.mem_cons.mp hm with h | h
        · subst h; exact absurd he hc
        · exact h
      obtain ⟨pre, t, ht⟩ := ih hm2
      exact ⟨c :: pre, t, by rw [ht]⟩

lemma amp_mem_key {a b pre t2 : List Char} (hnm : '=' ∉ a)
    (heq : a ++ '&' :: b = pre ++ '=' :: t2) :
    '&' ∈ pre := by
  rcases List.prefix_or_prefix_of_prefix (⟨'&' :: b, rfl⟩ : a <+: a ++ '&' :: b)
      (show pre <+: a ++ '&' :: b from ⟨'=' :: t2, heq.symm⟩) with hp | hp
  · obtain ⟨u, hu⟩ := hp
    cases u with
    | nil =>
      rw [List.append_nil] at hu
      subst hu
      have := List.append_cancel_left heq
      simp at this
    | cons c u2 =>
      subst hu
      rw [List.append_assoc] at heq
      have := List.append_cancel_left heq
      simp only [List.cons_append, List.cons.injEq] at this
      rw [← this.1]
      simp
  · obtain ⟨u, hu⟩ := hp
    cases u with
    | nil =>
      rw [List.append_nil] at hu
      subst hu
      have := List.append_cancel_left heq
      simp at this
    | cons c u2 =>
      subst hu
      rw [List.append_assoc] at heq
      have := List.append_cancel_left heq
      simp only [List.cons_append, List.cons.injEq] at this
      exact absurd (show '=' ∈ pre ++ c :: u2 by rw [this.1]; simp) hnm

lemma parseParamsLoop_no_eq {cfg : Config.Inner} {q : List Char}
    (hne : q ≠ []) (hnm : '=' ∉ q) :
    parseParamsLoop cfg q = Except.error CfgErr.unterminatedParam := by
  cases q with
  | nil => exact absurd rfl hne
  | cons c0 s0 =>
    rw [parseParamsLoop.eq_def]
    have hnone : takeUntil ['='] (c0 :: s0) = none :=
      takeUntil_none (fun c hc hmem => by
        have : c = '=' := by simpa using hmem
        subst this
        exact hnm hc)
    split
    · rename_i heq
      exact absurd heq (by simp)
    · rename_i c0x s0x heq
      injection heq with e1 e2
      subst e1
      subst e2
      split
      · rfl
      · rename_i keyRaw rest1 h1
        rw [hnone] at h1
        exact absurd h1 (by simp)

lemma parseParamsLoop_badkey {cfg : Config.Inner} {q pre t2 : List Char}
    (ht : takeUntil ['='] q = some (pre, '=' :: t2)) (hamp : '&' ∈ pre) :
    ∃ e, parseParamsLoop cfg q = Except.error e := by
  cases q with
  | nil => simp [takeUntil] at ht
  | cons c0 s0 =>
    rw [parseParamsLoop.eq_def]
    split
    · rename_i heq
      exact absurd heq (by simp)
    · rename_i c0x s0x heq
      injection heq with e1 e2
      subst e1
      subst e2
      split
      · rename_i h1
        rw [ht] at h1
        exact absurd h1 (by simp)
      · rename_i keyRaw rest1 h1
        rw [ht] at h1
        simp only [Option.some.injEq, Prod.mk.injEq] at h1
        obtain ⟨hk, hr⟩ := h1
        subst hk
        subst hr
        cases hds : decodeStr pre with
        | none => exact ⟨CfgErr.decodeErr, rfl⟩
        | some key =>
          have hampk := decodeStr_amp hamp hds
          have hkey : key ≠ "host".data := by
            rintro rfl
            revert hampk
            decide
          simp only [List.drop_succ_cons, List.drop_zero]
          split
          · rename_i value rest3 h2
            simp only [if_neg hkey]
            cases hdv : decodeStr value with
            | none => exact ⟨CfgErr.decodeErr, rfl⟩
            | some v =>
              have hpe : paramE cfg key v = Except.error (CfgErr.unknownOption key) := by
                unfold paramE
                rw [param_of_amp hampk]
              exact ⟨CfgErr.unknownOption key, by simp [hpe]⟩
          · rename_i h2
            simp only [if_neg hkey]
            cases hdv : decodeStr t2 with
            | none => exact ⟨CfgErr.decodeErr, rfl⟩
            | some v =>
              have hpe : paramE cfg key v = Except.error (CfgErr.unknownOption key) := by
                unfold paramE
                rw [param_of_amp hampk]
              exact ⟨CfgErr.unknownOption key, by simp [hpe]⟩

/-- Claim C3: the URL query section consumes `key=value` pairs separated
by `&` until the input is exhausted, and a pair with no `=` before
end-of-input or before the next `&` makes URL parsing fail: with no `=` at
all the "unterminated parameter" error is raised, and a first segment such
as `foo` in `foo&bar=baz` makes the key contain `&`, which no recognized
key does, so the parse fails with a terminal error in every case. -/
theorem claimC3 :
    (∀ (cfg : Config.Inner) (q : List Char), q ≠ [] → '=' ∉ q →
      parseParams cfg ('?' :: q) = Except.error CfgErr.unterminatedParam) ∧
    (∀ (cfg : Config.Inner) (a b : List Char), '=' ∉ a →
      ∃ e, parseParams cfg ('?' :: (a ++ '&' :: b)) = Except.error e) := by
  have hwrap : ∀ (cfg : Config.Inner) (q : List Char),
      parseParams cfg ('?' :: q) = parseParamsLoop cfg q := fun cfg q => rfl
  constructor
  · intro cfg q hne hnm
    rw [hwrap]
    exact parseParamsLoop_no_eq hne hnm
  · intro cfg a b hnm
    rw [hwrap]
    by_cases hb : '=' ∈ a ++ '&' :: b
    · obtain ⟨pre, t, ht⟩ := takeUntil_isSome (show ('=' : Char) ∈ ['='] by simp) hb
      obtain ⟨heq, hpre, c, t2, htt, hcm⟩ := takeUntil_some ht
      have hc : c = '=' := by simpa using hcm
      subst hc
      subst htt
      exact parseParamsLoop_badkey ht (amp_mem_key hnm heq)
    · exact ⟨_, parseParamsLoop_no_eq (by simp) hb⟩

theorem claimC3_witness :
    (("nokey".data ≠ []) ∧ ('=' ∉ "nokey".data) ∧
      parseParams Config.new ('?' :: ("nokey".data)) =
        Except.error CfgErr.unterminatedParam) ∧
    (('=' ∉ "foo".data) ∧
      ∃ e, parseParams Config.new ('?' :: ("foo".data ++ '&' :: "bar=baz".data)) =
        Except.error e) :=
  ⟨⟨by decide, by decide,
    claimC3.1 Config.new ("nokey".data) (by decide) (by decide)⟩,
   ⟨by decide, claimC3.2 Config.new ("foo".data) ("bar=baz".data) (by decide)⟩⟩

lemma charOfNat_toNat {n : Nat} (h : n.isValidChar) : (Char.ofNat n).toNat = n := by
  unfold Char.ofNat
  rw [dif_pos h]
  unfold Char.ofNatAux Char.toNat
  simp [UInt32.toNat]

lemma ascii_charOfNat_ne_slash {b : Nat} (h1 : b < 128) (h2 : b ≠ 47) :
    Char.ofNat b ≠ '/' := by
  intro hc
  have ht := charOfNat_toNat (show b.isValidChar from Or.inl (by omega))
  rw [hc] at ht
  have hv : (47 : Nat) = b := ht
  omega

lemma big_charOfNat_ne_slash {n : Nat} (h1 : 0x80 ≤ n) (h2 : n.isValidChar) :
    Char.ofNat n ≠ '/' := by
  intro hc
  have ht := charOfNat_toNat h2
  rw [hc] at ht
  have hv : (47 : Nat) = n := ht
  omega

lemma utf8Decode_head_ne_slash {bs : List Nat} {cs : List Char}
    (hd : utf8Decode bs = some cs) (hb : bs.head? ≠ some 0x2F) :
    cs.head? ≠ some '/' := by
  cases bs with
  | nil =>
    have h0 : some ([] : List Char) = some cs := hd
    injection h0 with h0
    subst h0
    simp
  | cons b rest =>
    have hbne : b ≠ 47 := by
      intro h
      exact hb (by rw [h]; rfl)
    rw [utf8Decode_cons] at hd
    by_cases h1 : b < 0x80
    · rw [if_pos h1] at hd
      cases hrest : utf8Decode rest with
      | none => simp [hrest] at hd
      | some cs2 =>
        simp [hrest] at hd
        subst hd
        simpa using ascii_charOfNat_ne_slash h1 hbne
    · rw [if_neg h1] at hd
      by_cases h2 : b < 0xC2
      · simp [h2] at hd
      · rw [if_neg h2] at hd
        by_cases h3 : b < 0xE0
        · rw [if_pos h3] at hd
          cases rest with
          | nil => simp at hd
          | cons b2 rest2 =>
            by_cases hcont : contByte b2
            · cases hrest : utf8Decode rest2 with
              | none => simp [hcont, hrest] at hd
              | some cs2 =>
                simp [hcont, hrest] at hd
                subst hd
                have hb2 : 0x80 ≤ b2 ∧ b2 ≤ 0xBF := by
                  simpa [contByte] using hcont
                have hge : 0x80 ≤ (b - 0xC0) * 0x40 + (b2 - 0x80) := by omega
                have hvalid : ((b - 0xC0) * 0x40 + (b2 - 0x80)).isValidChar :=
                  Or.inl (by omega)
                simpa using big_charOfNat_ne_slash hge hvalid
            · simp [hcont] at hd
        · rw [if_neg h3] at hd
          by_cases h4 : b < 0xF0
          · rw [if_pos h4] at hd
            cases rest with
            | nil => simp at hd
            | cons b2 r2 =>
              cases r2 with
              | nil => simp at hd
              | cons b3 rest3 =>
                by_cases hg : ((if b = 0xE0 then 0xA0 ≤ b2 && b2 ≤ 0xBF
                    else if b = 0xED then 0x80 ≤ b2 && b2 ≤ 0x9F
                    else contByte b2) && contByte b3) = true
                · cases hrest : utf8Decode rest3 with
                  | none => simp [hg, hrest] at hd
                  | some cs2 =>
                    simp only [hg, if_true] at hd
                    simp [hrest] at hd
                    subst hd
                    simp only [Bool.and_eq_true] at hg
                    obtain ⟨hg2, hg3⟩ := hg
                    have hb3 : 0x80 ≤ b3 ∧ b3 ≤ 0xBF := by
                      simpa [contByte] using hg3
                    by_cases hbe : b = 0xE0
                    · rw [if_pos hbe] at hg2
                      have hb2 : 0xA0 ≤ b2 ∧ b2 ≤ 0xBF := by simpa using hg2
                      subst hbe
                      have hge : 0x80 ≤ (0xE0 - 0xE0) * 0x1000 + (b2 - 0x80) * 0x40 +
                          (b3 - 0x80) := by omega
                      have hvalid : ((0xE0 - 0xE0) * 0x1000 + (b2 - 0x80) * 0x40 +
                          (b3 - 0x80)).isValidChar := Or.inl (by omega)
                      simpa using big_charOfNat_ne_slash hge hvalid
                    · rw [if_neg hbe] at hg2
                      by_cases hbd : b = 0xED
                      · rw [if_pos hbd] at hg2
                        have hb2 : 0x80 ≤ b2 ∧ b2 ≤ 0x9F := by simpa using hg2
                        subst hbd
                        have hge : 0x80 ≤ (0xED - 0xE0) * 0x1000 + (b2 - 0x80) * 0x40 +
                            (b3 - 0x80) := by omega
                        have hvalid : ((0xED - 0xE0) * 0x1000 + (b2 - 0x80) * 0x40 +
                            (b3 - 0x80)).isValidChar := Or.inl (by omega)
                        simpa using big_charOfNat_ne_slash hge hvalid
                      · rw [if_neg hbd] at hg2
                        have hb2 : 0x80 ≤ b2 ∧ b2 ≤ 0xBF := by
                          simpa [contByte] using hg2
                        have hge : 0x80 ≤ (b - 0xE0) * 0x1000 + (b2 - 0x80) * 0x40 +
                            (b3 - 0x80) := by omega
                        have hvalid : ((b - 0xE0) * 0x1000 + (b2 - 0x80) * 0x40 +
                            (b3 - 0x80)).isValidChar := by
                          by_cases hlow : b ≤ 0xEC
                          · exact Or.inl (by omega)
                          · exact Or.inr (by constructor <;> omega)
                        simpa using big_charOfNat_ne_slash hge hvalid
                · simp [hg] at hd
          · rw [if_neg h4] at hd
            by_cases h5 : b < 0xF5
            · rw [if_pos h5] at hd
              cases rest with
              | nil => simp at hd
              | cons b2 r2 =>
                cases r2 with
                | nil => simp at hd
                | cons b3 r3 =>
                  cases r3 with
                  | nil => simp at hd
                  | cons b4 rest4 =>
                    by_cases hg : ((if b = 0xF0 then 0x90 ≤ b2 && b2 ≤ 0xBF
                        else if b = 0xF4 then 0x80 ≤ b2 && b2 ≤ 0x8F
                        else contByte b2) && contByte b3 && contByte b4) = true
                    · cases hrest : utf8Decode rest4 with
                      | none => simp [hg, hrest] at hd
                      | some cs2 =>
                        simp only [hg, if_true] at hd
                        simp [hrest] at hd
                        subst hd
                        simp only [Bool.and_eq_true] at hg
                        obtain ⟨⟨hg2, hg3⟩, hg4⟩ := hg
                        have hb3 : 0x80 ≤ b3 ∧ b3 ≤ 0xBF := by
                          simpa [contByte] using hg3
                        have hb4 : 0x80 ≤ b4 ∧ b4 ≤ 0xBF := by
                          simpa [contByte] using hg4
                        have hb2 : 0x80 ≤ b2 ∧ b2 ≤ 0xBF := by
                          by_cases hbf : b = 0xF0
                          · rw [if_pos hbf] at hg2
                            have hx : 0x90 ≤ b2 ∧ b2 ≤ 0xBF := by simpa using hg2
                            omega
                          · rw [if_neg hbf] at hg2
                            by_cases hbg : b = 0xF4
                            · rw [if_pos hbg] at hg2
                              have hx : 0x80 ≤ b2 ∧ b2 ≤ 0x8F := by simpa using hg2
                              omega
                            · rw [if_neg hbg] at hg2
                              simpa [contByte] using hg2
                        have hcp : 0x10000 ≤ (b - 0xF0) * 0x40000 + (b2 - 0x80) * 0x1000 +
                            (b3 - 0x80) * 0x40 + (b4 - 0x80) := by
                          by_cases hbf : b = 0xF0
                          · subst hbf
                            rw [if_pos rfl] at hg2
                            have hx : 0x90 ≤ b2 ∧ b2 ≤ 0xBF := by simpa using hg2
                            omega
                          · omega
                        have hub : (b - 0xF0) * 0x40000 + (b2 - 0x80) * 0x1000 +
                            (b3 - 0x80) * 0x40 + (b4 - 0x80) < 0x110000 := by
                          by_cases hbg : b = 0xF4
                          · subst hbg
                            rw [if_neg (by omega), if_pos rfl] at hg2
                            have hx : 0x80 ≤ b2 ∧ b2 ≤ 0x8F := by simpa using hg2
                            omega
                          · omega
                        have hge : 0x80 ≤ (b - 0xF0) * 0x40000 + (b2 - 0x80) * 0x1000 +
                            (b3 - 0x80) * 0x40 + (b4 - 0x80) := by omega
                        have hvalid : ((b - 0xF0) * 0x40000 + (b2 - 0x80) * 0x1000 +
                            (b3 - 0x80) * 0x40 + (b4 - 0x80)).isValidChar :=
                          Or.inr ⟨by omega, hub⟩
                        simpa using big_charOfNat_ne_slash hge hvalid
                    · simp [hg] at hd
            · simp [h5] at hd

lemma portsApplied_map_of_allOk {comps : List (List Char)}
    (h : comps.all portCompOk = true) :
    portsApplied comps = comps.map portCompVal := by
  induction comps with
  | nil => simp [portsApplied]
  | cons p rest ih =>
    simp only [List.all_cons, Bool.and_eq_true] at h
    rw [portsApplied]
    by_cases hp : p = []
    · simp [hp, portCompVal, ih h.2]
    · have h1 := h.1
      simp only [portCompOk, Bool.or_eq_true, decide_eq_true_eq] at h1
      cases hu : parseU16 p with
      | some n => simp [hp, hu, portCompVal, ih h.2]
      | none =>
        rcases h1 with h1 | h1
        · exact absurd h1 hp
        · rw [hu] at h1
          simp at h1

lemma splitOnChar_ne_nil (sep : Char) (s : List Char) : splitOnChar sep s ≠ [] := by
  cases s with
  | nil => simp [splitOnChar]
  | cons c rest =>
    rw [splitOnChar.eq_def]
    by_cases hc : c = sep
    · simp [hc]
    · simp only [if_neg hc]
      cases h : splitOnChar sep rest <;> simp

lemma splitOnChar_no_sep {sep : Char} {s : List Char} (h : sep ∉ s) :
    splitOnChar sep s = [s] := by
  induction s with
  | nil => rfl
  | cons c rest ih =>
    have hcs : ¬c = sep := fun hc => h (by rw [hc]; exact List.mem_cons_self _ _)
    have hr := ih (fun hm => h (List.mem_cons_of_mem _ hm))
    rw [splitOnChar.eq_def]
    simp [hcs, hr]

lemma paramE_port_ok {c c2 : Config.Inner} {pd : List Char}
    (h : paramE c ("port".data) pd = Except.ok c2) :
    c2 = { c with port := c.port ++ portsApplied (splitOnChar ',' pd) } ∧
      (splitOnChar ',' pd).all portCompOk = true := by
  unfold paramE at h
  have hd : Config.param c ("port".data) pd = portApply c (splitOnChar ',' pd) := rfl
  rw [hd, portApply_eq] at h
  by_cases hall : (splitOnChar ',' pd).all portCompOk
  · simp only [hall, if_true] at h
    simp at h
    exact ⟨h.symm, hall⟩
  · simp only [hall, if_false] at h
    simp at h

lemma hostParam_port {c c1 : Config.Inner} {h : List Char}
    (hh : hostParam c h = Except.ok c1) : c1.port = c.port := by
  unfold hostParam at hh
  by_cases hs : (pctDecode h).head? = some 0x2F
  · rw [if_pos hs] at hh
    have h1 : c1 = Config.host_path c (pctDecode h) := (Except.ok.inj hh).symm
    subst h1
    rfl
  · rw [if_neg hs] at hh
    cases hdec : utf8Decode (pctDecode h) with
    | none => rw [hdec] at hh; exact absurd hh (by simp)
    | some str =>
      rw [hdec] at hh
      have h1 : c1 = Config.host c str := (Except.ok.inj hh).symm
      subst h1
      unfold Config.host
      split
      · rfl
      · rfl

/-- Claim C5 (counterexample): in `postgres://h:1%2C2` the single host
token `h:1%2C2` has the port string `1%2C2`, which percent-decodes to
`1,2`; `apply("port", ...)` splits it on the comma, so the one host token
contributes two port entries, not exactly one. -/
theorem claimC5_counterexample :
    fromStr ("postgres://h:1%2C2".data) =
      Except.ok { Config.new with host := [Host.Tcp ("h".data)], port := [1, 2] } ∧
    ({ Config.new with host := [Host.Tcp ("h".data)], port := [1, 2] } :
      Config.Inner).host.length = 1 ∧
    ({ Config.new with host := [Host.Tcp ("h".data)], port := [1, 2] } :
      Config.Inner).port.length = 2 :=
  ⟨rfl, rfl, rfl⟩

/-- Claim C5 (amended): each comma-separated host token is
percent-decoded; decoded bytes starting with `/` are stored as a Unix
socket path (raw bytes), otherwise the bytes must be valid text — invalid
UTF-8 is a decode error — and the token is stored as a network hostname.
The token's port (or `"5432"` when absent) is percent-decoded and applied
through `apply("port", ...)`, so the token contributes one port entry per
comma-component of the decoded port string: at least one entry, and
exactly one whenever the decoded port string contains no comma. -/
theorem claimC5_amended :
    (∀ (c : Config.Inner) (chunk h : List Char) (p : Option (List Char))
        (c2 : Config.Inner),
      chunkHostPort chunk = Except.ok (h, p) →
      applyHostChunk c chunk = Except.ok c2 →
      ((pctDecode h).head? = some 0x2F →
        c2.host = c.host ++ [Host.Unix (pctDecode h)]) ∧
      ((pctDecode h).head? ≠ some 0x2F →
        ∃ str, utf8Decode (pctDecode h) = some str ∧
          c2.host = c.host ++ [Host.Tcp str]) ∧
      (∃ pd, decodeStr (p.getD ("5432".data)) = some pd ∧
        c2.port = c.port ++ (splitOnChar ',' pd).map portCompVal ∧
        1 ≤ (splitOnChar ',' pd).length ∧
        ((',' ∉ pd) → c2.port = c.port ++ [portCompVal pd]))) ∧
    (∀ (c : Config.Inner) (chunk h : List Char) (p : Option (List Char)),
      chunkHostPort chunk = Except.ok (h, p) →
      (pctDecode h).head? ≠ some 0x2F →
      utf8Decode (pctDecode h) = none →
      applyHostChunk c chunk = Except.error CfgErr.decodeErr) := by
  have hstep : ∀ (c : Config.Inner) (chunk h : List Char) (p : Option (List Char)),
      chunkHostPort chunk = Except.ok (h, p) →
      applyHostChunk c chunk =
        (match hostParam c h with
         | Except.error e => Except.error e
         | Except.ok c1 =>
           match decodeStr (p.getD ("5432".data)) with
           | none => Except.error CfgErr.decodeErr
           | some pd => paramE c1 ("port".data) pd) := by
    intro c chunk h p hcp
    unfold applyHostChunk
    rw [hcp]
  constructor
  · intro c chunk h p c2 hcp happ
    rw [hstep c chunk h p hcp] at happ
    cases hhp : hostParam c h with
    | error e => rw [hhp] at happ; exact absurd happ (by simp)
    | ok c1 =>
      rw [hhp] at happ
      cases hpd : decodeStr (p.getD ("5432".data)) with
      | none => rw [hpd] at happ; exact absurd happ (by simp)
      | some pd =>
        rw [hpd] at happ
        obtain ⟨hc2, hall⟩ := paramE_port_ok happ
        have hport : c1.port = c.port := hostParam_port hhp
        refine ⟨?_, ?_, ?_⟩
        · intro hslash
          unfold hostParam at hhp
          rw [if_pos hslash] at hhp
          have hc1 : c1 = Config.host_path c (pctDecode h) := (Except.ok.inj hhp).symm
          subst hc2
          subst hc1
          rfl
        · intro hnslash
          unfold hostParam at hhp
          rw [if_neg hnslash] at hhp
          cases hdec : utf8Decode (pctDecode h) with
          | none => rw [hdec] at hhp; exact absurd hhp (by simp)
          | some str =>
            rw [hdec] at hhp
            have hc1 : c1 = Config.host c str := (Except.ok.inj hhp).symm
            have hstr : str.head? ≠ some '/' :=
              utf8Decode_head_ne_slash hdec hnslash
            refine ⟨str, rfl, ?_⟩
            subst hc2
            subst hc1
            show (Config.host c str).host = c.host ++ [Host.Tcp str]
            unfold Config.host
            rw [if_neg hstr]
        · refine ⟨pd, rfl, ?_, ?_, ?_⟩
          · subst hc2
            show c1.port ++ portsApplied (splitOnChar ',' pd) = _
            rw [hport, portsApplied_map_of_allOk hall]
          · have := splitOnChar_ne_nil ',' pd
            cases hsp : splitOnChar ',' pd with
            | nil => exact absurd hsp this
            | cons a b => simp
          · intro hnc
            subst hc2
            show c1.port ++ portsApplied (splitOnChar ',' pd) = _
            rw [hport, portsApplied_map_of_allOk hall, splitOnChar_no_sep hnc]
            rfl
  · intro c chunk h p hcp hnsl hdec
    rw [hstep c chunk h p hcp]
    have hhp : hostParam c h = Except.error CfgErr.decodeErr := by
      unfold hostParam
      rw [if_neg hnsl, hdec]
    rw [hhp]

theorem claimC5_witness :
    (chunkHostPort ("h:1%2C2".data) =
        Except.ok ("h".data, some ("1%2C2".data)) ∧
      applyHostChunk Config.new ("h:1%2C2".data) =
        Except.ok { Config.new with host := [Host.Tcp ("h".data)], port := [1, 2] }) ∧
    (((pctDecode ("h".data)).head? = some 0x2F →
        ({ Config.new with host := [Host.Tcp ("h".data)], port := [1, 2] } :
          Config.Inner).host = Config.new.host ++ [Host.Unix (pctDecode ("h".data))]) ∧
      ((pctDecode ("h".data)).head? ≠ some 0x2F →
        ∃ str, utf8Decode (pctDecode ("h".data)) = some str ∧
          ({ Config.new with host := [Host.Tcp ("h".data)], port := [1, 2] } :
            Config.Inner).host = Config.new.host ++ [Host.Tcp str]) ∧
      (∃ pd, decodeStr ((some ("1%2C2".data)).getD ("5432".data)) = some pd ∧
        ({ Config.new with host := [Host.Tcp ("h".data)], port := [1, 2] } :
          Config.Inner).port =
            Config.new.port ++ (splitOnChar ',' pd).map portCompVal ∧
        1 ≤ (splitOnChar ',' pd).length ∧
        ((',' ∉ pd) →
          ({ Config.new with host := [Host.Tcp ("h".data)], port := [1, 2] } :
            Config.Inner).port = Config.new.port ++ [portCompVal pd]))) :=
  ⟨⟨rfl, rfl⟩,
   claimC5_amended.1 Config.new ("h:1%2C2".data) ("h".data) (some ("1%2C2".data))
     { Config.new with host := [Host.Tcp ("h".data)], port := [1, 2] } rfl rfl⟩
